import Mathlib

/-!
Verification of the crowd-safety simulation backend.

Shallow embedding of the Python sources under `backend/` into Lean:
Python floats are modelled as rationals (`ℚ`), Python dicts as
insertion-ordered association lists, and mutating methods as functions
from the pre-state to the post-state.  Each section names the source
file and method it embeds; the theorems at the end of the file settle
the specification claims against these definitions.
-/

namespace CrowdSim

/-! ## Association-list helpers (Python `dict` semantics)

Python dicts preserve insertion order and overwrite in place; `alget`
and `alset` mirror `d[k]` / `d[k] = v` on an association list. -/

def alget {α : Type} (k : String) : List (String × α) → Option α
  | [] => none
  | (k', v) :: rest => if k' = k then some v else alget k rest

def alset {α : Type} (k : String) (v : α) : List (String × α) → List (String × α)
  | [] => [(k, v)]
  | (k', v') :: rest => if k' = k then (k, v) :: rest else (k', v') :: alset k v rest

/-! ## `simulation/agent.py` — the `Agent` class

Only the fields read or written by the embedded methods are carried.
`type_patience` holds the constant `AGENT_TYPES[self.agent_type]["patience"]`
fixed at construction, which `_apply_panic_effects` and
`_restore_normal_behavior` read back. -/

structure Agent where
  current_node : String
  goal_node : String
  speed : ℚ
  base_speed : ℚ
  patience : ℚ
  type_patience : ℚ
  path : Option (List String)
  path_index : Nat
  preferred_personal_space : ℚ
  panic_threshold : ℚ
  base_panic_threshold : ℚ
  panic_level : ℚ
  panic_source_id : Option String
  panic_influenced_until : ℚ
  panic_decay_rate : ℚ
  blocked_until_time : ℚ
  has_reached_goal : Bool
deriving Repr

/-- A freshly constructed agent (`Agent.__init__`): panic level 0, decay
rate 0.02, panic threshold 4.0, no block. -/
def Agent.init (start goal : String) (speed patience : ℚ) : Agent :=
  { current_node := start
    goal_node := goal
    speed := speed
    base_speed := speed
    patience := patience
    type_patience := patience
    path := none
    path_index := 0
    preferred_personal_space := 2
    panic_threshold := 4
    base_panic_threshold := 4
    panic_level := 0
    panic_source_id := none
    panic_influenced_until := 0
    panic_decay_rate := 1/50
    blocked_until_time := 0
    has_reached_goal := false }

/-- `Agent._apply_panic_effects`: speed boosted up to +50% (capped at 0.8),
patience reduced up to 50% (floored at 0.1), panic threshold lowered up
to 30% (floored at 2.0), all driven by the current panic level. -/
def Agent.apply_panic_effects (a : Agent) : Agent :=
  { a with
    speed := min (4/5) (a.base_speed * (1 + a.panic_level * (1/2)))
    patience := max (1/10) (a.type_patience * (1 - a.panic_level * (1/2)))
    panic_threshold := max 2 (a.base_panic_threshold * (1 - a.panic_level * (3/10))) }

/-- `Agent.update_panic`: only raises panic (capped at 1.0), records the
source, resets the 10-second hold timer, and applies behaviour effects. -/
def Agent.update_panic (a : Agent) (new_level : ℚ) (source_id : String)
    (current_time : ℚ) : Agent :=
  if a.panic_level < new_level then
    Agent.apply_panic_effects
      { a with
        panic_level := min 1 new_level
        panic_source_id := some source_id
        panic_influenced_until := current_time + 10 }
  else a

/-- `Agent._restore_normal_behavior`. -/
def Agent.restore_normal_behavior (a : Agent) : Agent :=
  { a with
    speed := a.base_speed
    patience := a.type_patience
    panic_threshold := a.base_panic_threshold }

/-- `Agent.decay_panic`: linear decay once the hold timer has expired,
with a snap to the calm state below 0.05. -/
def Agent.decay_panic (a : Agent) (current_time dt : ℚ) : Agent :=
  if a.panic_influenced_until < current_time ∧ 0 < a.panic_level then
    if max 0 (a.panic_level - a.panic_decay_rate * dt) < 1/20 then
      Agent.restore_normal_behavior
        { a with panic_level := 0, panic_source_id := none }
    else { a with panic_level := max 0 (a.panic_level - a.panic_decay_rate * dt) }
  else a

/-- `Agent.get_next_node`: next node on the planned path, `None` when
there is no path (or it is the empty list, falsy in Python), the goal
was reached, or the cursor is at the end. -/
def Agent.get_next_node (a : Agent) : Option String :=
  match a.path with
  | none => none
  | some p =>
    if p.isEmpty then none
    else if a.has_reached_goal then none
    else if a.path_index + 1 < p.length then p.get? (a.path_index + 1)
    else none

/-- `Agent.move_to_next_node` with the speed draw made explicit: the
agent advances only when `speed_draw ≤ speed` (the source skips the
move when `random.random() > self.speed`), and the goal flag is set on
arrival. -/
def Agent.move_to_next_node (a : Agent) (speed_draw : ℚ) : Agent :=
  match a.get_next_node with
  | none => a
  | some nxt =>
    if a.speed < speed_draw then a
    else
      let a' := { a with current_node := nxt, path_index := a.path_index + 1 }
      if a'.current_node = a'.goal_node then { a' with has_reached_goal := true }
      else a'

/-- `Agent.should_wait`: forced wait while blocked by an intervention,
otherwise a density/patience-driven random wait; the random draw is made
explicit as `wait_draw` ∈ [0,1). -/
def Agent.should_wait (a : Agent) (current_density : ℚ) (current_time : ℚ)
    (wait_draw : ℚ) : Bool :=
  if current_time < a.blocked_until_time then true
  else if current_density < a.preferred_personal_space then false
  else decide (wait_draw < current_density / a.panic_threshold * (1 - a.patience))

/-- `Agent.block_until`. -/
def Agent.block_until (a : Agent) (timestamp : ℚ) : Agent :=
  if a.blocked_until_time < timestamp then { a with blocked_until_time := timestamp }
  else a

/-! ## `Components/risk_assessment.py` — `InterventionRiskAssessment` -/

inductive RiskLevel where
  | LOW
  | MEDIUM
  | HIGH
deriving DecidableEq, Repr

/-- Context dict passed to `assess_risk`; `density` and
`has_active_trigger` are the keys it reads (with defaults 0.0 / False
supplied by the caller when absent). -/
structure RiskContext where
  density : ℚ
  has_active_trigger : Bool
deriving Repr

/-- `InterventionRiskAssessment.ACTION_RISK_MAP` with the `.get` default
of HIGH for unknown actions. -/
def ACTION_RISK_MAP (action : String) : RiskLevel :=
  if action = "THROTTLE_25" then .LOW
  else if action = "THROTTLE_50" then .MEDIUM
  else if action = "CLOSE_INFLOW" then .HIGH
  else if action = "REROUTE" then .LOW
  else if action = "NOOP" then .LOW
  else .HIGH

/-- `InterventionRiskAssessment.assess_risk` (with the default
`recommendation_action=None`, so no remapping step). -/
def assess_risk (action : String) (ctx : RiskContext) : RiskLevel :=
  let base_risk := ACTION_RISK_MAP action
  if base_risk = .HIGH then .HIGH
  else if ctx.has_active_trigger then .HIGH
  else if action = "REROUTE" then
    (if 7/2 ≤ ctx.density then .MEDIUM else .LOW)
  else if action = "THROTTLE_25" then .LOW
  else if action = "THROTTLE_50" then
    (if 5 < ctx.density then .HIGH else .MEDIUM)
  else base_risk

/-! ## `simulation/digital_twin.py` — `DigitalTwin` -/

structure NodeData where
  area_m2 : ℚ
  capacity : Int
  current_count : Int
  area_type : String
  density : ℚ
  risk_level : String
  is_blocked : Bool
  block_expires : ℚ
deriving Repr

/-- `DigitalTwin._calculate_risk`. -/
def calculate_risk (density : ℚ) : String :=
  if density < 2 then "SAFE"
  else if density < 4 then "WARNING"
  else "DANGER"

/-- The digital twin: `graph` node set and directed edge set of the
`nx.DiGraph`, plus `node_data`.  `add_area` keeps the graph node list
and the `node_data` keys in lockstep. -/
structure DigitalTwin where
  nodes : List String
  edges : List (String × String)
  node_data : List (String × NodeData)
deriving Repr

/-- `DigitalTwin.update_node_count`: update occupancy, recompute
density (guarding division by a non-positive area) and risk level; a
missing node id is silently ignored. -/
def DigitalTwin.update_node_count (tw : DigitalTwin) (node_id : String)
    (count : Int) : DigitalTwin :=
  match alget node_id tw.node_data with
  | none => tw
  | some nd =>
    let density : ℚ := if 0 < nd.area_m2 then (count : ℚ) / nd.area_m2 else 0
    { tw with
      node_data := alset node_id
        { nd with
          current_count := count
          density := density
          risk_level := calculate_risk density } tw.node_data }

/-! ### `DigitalTwin.get_shortest_path`

`nx.shortest_path` on the unweighted digraph is a breadth-first search;
it raises `NodeNotFound` when source or target is missing (modelled as
`Except.error`, NOT caught by `get_shortest_path`) and `NetworkXNoPath`
when the target is unreachable (caught and converted to `None`,
modelled as `Except.ok none`). -/

/-- Successors of `u` in the subgraph induced by `nodes` (edge targets
restricted to the induced node set; callers only pass `u ∈ nodes`). -/
def adjOf (edges : List (String × String)) (nodes : List String) (u : String) :
    List String :=
  (edges.filter (fun e => e.1 == u && nodes.contains e.2)).map (fun e => e.2)

/-- Fuelled breadth-first search working on reversed paths (current
node at the head); returns the first path that reaches `target`. -/
def bfs_loop (adj : String → List String) (target : String) :
    Nat → List (List String) → List String → Option (List String)
  | 0, _, _ => none
  | Nat.succ _, [], _ => none
  | Nat.succ fuel, p :: queue, visited =>
    match p with
    | [] => bfs_loop adj target fuel queue visited
    | cur :: _ =>
      if cur = target then some p.reverse
      else
        let nbrs := (adj cur).filter (fun v => !(visited.contains v))
        bfs_loop adj target fuel (queue ++ nbrs.map (fun v => v :: p))
          (visited ++ nbrs)

/-- `nx.shortest_path` over the subgraph induced by `nodes`: error when
source or target is not a node (`NodeNotFound`), otherwise the BFS
result (`none` standing for the caught `NetworkXNoPath`). -/
def nx_shortest_path (nodes : List String) (edges : List (String × String))
    (s t : String) : Except Unit (Option (List String)) :=
  if s ∈ nodes ∧ t ∈ nodes then
    .ok (bfs_loop (adjOf edges nodes) t
      (1 + (nodes.length + 1) * (edges.length + 1)) [[s]] [s])
  else .error ()

/-- `DigitalTwin.get_shortest_path`: exclude currently-blocked nodes
from the search, except the path's own start/end. -/
def DigitalTwin.get_shortest_path (tw : DigitalTwin) (start target : String) :
    Except Unit (Option (List String)) :=
  let blocked_nodes := (tw.node_data.filter (fun p => p.2.is_blocked)).map Prod.fst
  if blocked_nodes.isEmpty then nx_shortest_path tw.nodes tw.edges start target
  else
    let nodes_to_exclude := blocked_nodes.filter
      (fun n => !(n == start) && !(n == target))
    if nodes_to_exclude.isEmpty then nx_shortest_path tw.nodes tw.edges start target
    else
      let active_nodes := tw.nodes.filter (fun n => !(nodes_to_exclude.contains n))
      nx_shortest_path active_nodes tw.edges start target

/-- A zone that is currently blocked (its `node_data` entry has the
`is_blocked` flag). -/
def ZoneBlocked (tw : DigitalTwin) (z : String) : Prop :=
  ∃ nd, alget z tw.node_data = some nd ∧ nd.is_blocked = true

/-- The claim's notion of an acceptable route: a chain of graph edges
from `s` to `t` in which every blocked zone is an endpoint. -/
def UnblockedRoute (tw : DigitalTwin) (s t : String) (p : List String) : Prop :=
  p.head? = some s ∧ p.getLast? = some t ∧
  List.Chain' (fun u v => (u, v) ∈ tw.edges) p ∧
  (∀ z ∈ p, ZoneBlocked tw z → z = s ∨ z = t)

/-- Invariant of a reversed path in the BFS queue: it starts (at its
reversed end) at `s`, follows edges, and stays inside `nodes`. -/
def RevOk (nodes : List String) (edges : List (String × String)) (s : String)
    (p : List String) : Prop :=
  p.getLast? = some s ∧ List.Chain' (fun a b => (b, a) ∈ edges) p ∧
  ∀ z ∈ p, z ∈ nodes

/-! ## `Components/failsafe_mechanisms.py` — `FailSafeMechanisms`

Violation messages in the source are f-strings interpolating the
measured numbers; the numeric rendering is abstracted here and the
message carries the fixed text, while the measured value and the limit
are carried exactly in the violation record fields. -/

structure InterventionRecord where
  intervention_id : String
  action_type : String
  node_id : String
  applied_at : ℚ
  parameters : List (String × ℚ)
  rollback_data : List (String × ℚ)
  can_rollback : Bool
  rolled_back : Bool
  rolled_back_at : Option ℚ
deriving Repr, DecidableEq

structure SafetyConstraints where
  max_interventions_per_minute : ℚ
  min_interval_seconds : ℚ
  max_active_interventions : Nat
  enable_rollback : Bool
  enable_manual_override : Bool
deriving Repr

/-- The `SafetyConstraints` dataclass defaults. -/
def defaultConstraints : SafetyConstraints :=
  { max_interventions_per_minute := 10
    min_interval_seconds := 5
    max_active_interventions := 5
    enable_rollback := true
    enable_manual_override := true }

structure SafetyViolation where
  violation_type : String
  intervention_id : Option String
  timestamp : ℚ
  constraint_name : String
  actual_value : ℚ
  limit_value : ℚ
  was_blocked : Bool
  message : String
deriving Repr, DecidableEq

structure FailSafeMechanisms where
  intervention_history : List InterventionRecord
  safety_constraints : SafetyConstraints
  violations : List SafetyViolation
  active_interventions : List (String × InterventionRecord)
  rollback_stack : List InterventionRecord
deriving Repr

/-- `FailSafeMechanisms.__init__`. -/
def FailSafeMechanisms.init : FailSafeMechanisms :=
  { intervention_history := []
    safety_constraints := defaultConstraints
    violations := []
    active_interventions := []
    rollback_stack := [] }

/-- Second half of `check_safety_constraints`: the maximum-active and
maximum-frequency checks, reached when the minimum-interval check
passed (or the history is empty). -/
def check_after_min_interval (fs : FailSafeMechanisms) (intervention_id : String)
    (current_time : ℚ) : FailSafeMechanisms × Bool × Option String :=
  let active_count := fs.active_interventions.length
  if fs.safety_constraints.max_active_interventions ≤ active_count then
    let v : SafetyViolation :=
      { violation_type := "max_active"
        intervention_id := some intervention_id
        timestamp := current_time
        constraint_name := "max_active_interventions"
        actual_value := (active_count : ℚ)
        limit_value := (fs.safety_constraints.max_active_interventions : ℚ)
        was_blocked := true
        message := "Maximum active interventions reached" }
    ({ fs with violations := fs.violations ++ [v] }, false, some v.message)
  else
    if fs.intervention_history.isEmpty then (fs, true, none)
    else
      let recent := fs.intervention_history.filter
        (fun i => decide (current_time - 60 ≤ i.applied_at))
      let frequency : ℚ := (recent.length : ℚ) / 60 * 60
      if fs.safety_constraints.max_interventions_per_minute ≤ frequency then
        let v : SafetyViolation :=
          { violation_type := "max_frequency"
            intervention_id := some intervention_id
            timestamp := current_time
            constraint_name := "max_interventions_per_minute"
            actual_value := frequency
            limit_value := fs.safety_constraints.max_interventions_per_minute
            was_blocked := true
            message := "Maximum frequency violated" }
        ({ fs with violations := fs.violations ++ [v] }, false, some v.message)
      else (fs, true, none)

/-- `FailSafeMechanisms.check_safety_constraints`: returns the updated
state (violations may be appended), the boolean outcome, and the
optional human-readable reason.  It is a total function: every branch
returns a value, no exception is raised. -/
def check_safety_constraints (fs : FailSafeMechanisms)
    (intervention_id action_type node_id : String) (current_time : ℚ)
    (is_manual : Bool) : FailSafeMechanisms × Bool × Option String :=
  if is_manual && fs.safety_constraints.enable_manual_override then (fs, true, none)
  else
    match fs.intervention_history.getLast? with
    | some last =>
      if current_time - last.applied_at < fs.safety_constraints.min_interval_seconds then
        let v : SafetyViolation :=
          { violation_type := "min_interval"
            intervention_id := some intervention_id
            timestamp := current_time
            constraint_name := "min_interval_seconds"
            actual_value := current_time - last.applied_at
            limit_value := fs.safety_constraints.min_interval_seconds
            was_blocked := true
            message := "Minimum interval violated" }
        ({ fs with violations := fs.violations ++ [v] }, false, some v.message)
      else check_after_min_interval fs intervention_id current_time
    | none => check_after_min_interval fs intervention_id current_time

/-- `FailSafeMechanisms.record_intervention` (called after the safety
checks passed): appends to history, marks active, pushes onto the
rollback stack, and trims history/violation logs to their caps. -/
def record_intervention (fs : FailSafeMechanisms)
    (intervention_id action_type node_id : String) (current_time : ℚ)
    (parameters rollback_data : List (String × ℚ)) :
    FailSafeMechanisms × InterventionRecord :=
  let record : InterventionRecord :=
    { intervention_id := intervention_id
      action_type := action_type
      node_id := node_id
      applied_at := current_time
      parameters := parameters
      rollback_data := rollback_data
      can_rollback := fs.safety_constraints.enable_rollback
      rolled_back := false
      rolled_back_at := none }
  let history := fs.intervention_history ++ [record]
  let history := if 1000 < history.length then history.drop (history.length - 1000) else history
  let violations := if 100 < fs.violations.length
    then fs.violations.drop (fs.violations.length - 100) else fs.violations
  ({ fs with
      intervention_history := history
      active_interventions := alset intervention_id record fs.active_interventions
      rollback_stack := if fs.safety_constraints.enable_rollback
        then fs.rollback_stack ++ [record] else fs.rollback_stack
      violations := violations },
    record)

/-- Remove a key from an association list (`del d[k]`). -/
def aldel {α : Type} (k : String) (l : List (String × α)) : List (String × α) :=
  l.filter (fun p => !(p.1 == k))

/-- The search loop of `rollback_intervention`: walk the rollback stack
from the most recent entry; with an explicit id, find that id not yet
rolled back, otherwise the most recent un-rolled-back rollback-eligible
record. -/
def find_rollback_target (stack : List InterventionRecord)
    (intervention_id : Option String) : Option InterventionRecord :=
  match intervention_id with
  | some iid => stack.reverse.find? (fun r => r.intervention_id == iid && !r.rolled_back)
  | none => stack.reverse.find? (fun r => !r.rolled_back && r.can_rollback)

/-- Mark the record with the given id as rolled back (the Python record
object is aliased by the stack, the history and the active map, so the
in-place mutation is modelled as an id-keyed update of each list). -/
def mark_rolled_back (iid : String) (t : ℚ) (r : InterventionRecord) : InterventionRecord :=
  if r.intervention_id = iid then { r with rolled_back := true, rolled_back_at := some t }
  else r

/-- `FailSafeMechanisms.rollback_intervention`: find the target record,
mark it rolled back, and remove it from the active set.  Note that the
stored `rollback_data` is returned inside the record but is never
applied to any controller: neither this method nor its only caller (the
`/safety/rollback` route) restores the modified parameter. -/
def rollback_intervention (fs : FailSafeMechanisms)
    (intervention_id : Option String) (current_time : ℚ) :
    FailSafeMechanisms × Option InterventionRecord :=
  if !fs.safety_constraints.enable_rollback then (fs, none)
  else
    match find_rollback_target fs.rollback_stack intervention_id with
    | none => (fs, none)
    | some record =>
      let record' := { record with rolled_back := true, rolled_back_at := some current_time }
      ({ fs with
          rollback_stack := fs.rollback_stack.map
            (mark_rolled_back record.intervention_id current_time)
          intervention_history := fs.intervention_history.map
            (mark_rolled_back record.intervention_id current_time)
          active_interventions := aldel record.intervention_id fs.active_interventions },
        some record')

/-! ## `Components/spawn_control.py` — `SpawnRateController` -/

structure SpawnControlState where
  node_id : String
  base_rate : ℚ
  current_rate : ℚ
  rate_multiplier : ℚ
  is_blocked : Bool
  blocked_until : Option ℚ
  total_spawned : Nat
  total_blocked : Nat
deriving Repr, DecidableEq

structure SpawnRateController where
  node_states : List (String × SpawnControlState)
  default_spawn_rate : ℚ
deriving Repr

/-- `SpawnRateController.__init__`. -/
def SpawnRateController.init : SpawnRateController :=
  { node_states := [], default_spawn_rate := 10 }

/-- Python truthiness of an optional float: `None` and `0.0` are falsy
(the source tests `if duration:`). -/
def pyTruthy : Option ℚ → Bool
  | none => false
  | some d => decide (d ≠ 0)

/-- Python `x or d` on an optional float: `None` and `0.0` fall back. -/
def pyOr (x : Option ℚ) (d : ℚ) : ℚ :=
  match x with
  | none => d
  | some r => if r = 0 then d else r

/-- `SpawnRateController.initialize_node`. -/
def SpawnRateController.initialize_node (sc : SpawnRateController)
    (node_id : String) (base_rate : Option ℚ) : SpawnRateController :=
  match alget node_id sc.node_states with
  | some _ => sc
  | none =>
    let rate := pyOr base_rate sc.default_spawn_rate
    let st : SpawnControlState :=
      { node_id := node_id
        base_rate := rate
        current_rate := rate
        rate_multiplier := 1
        is_blocked := false
        blocked_until := none
        total_spawned := 0
        total_blocked := 0 }
    { sc with node_states := alset node_id st sc.node_states }

/-- `SpawnRateController.set_spawn_rate`: clamp the multiplier into
[0,1], recompute the current rate, and set/clear the expiry timestamp
(`if duration:` — so a zero duration behaves like no duration). -/
def SpawnRateController.set_spawn_rate (sc : SpawnRateController)
    (node_id : String) (rate_multiplier : ℚ) (duration : Option ℚ)
    (current_time : ℚ) : SpawnRateController :=
  let sc := if (alget node_id sc.node_states).isNone
    then sc.initialize_node node_id none else sc
  match alget node_id sc.node_states with
  | none => sc
  | some st =>
    let m := max 0 (min 1 rate_multiplier)
    let st := { st with rate_multiplier := m, current_rate := st.base_rate * m }
    let st :=
      if m = 0 then
        { st with is_blocked := true
                  blocked_until := if pyTruthy duration
                    then some (current_time + pyOr duration 0) else none }
      else
        { st with is_blocked := false
                  blocked_until := if pyTruthy duration
                    then some (current_time + pyOr duration 0) else none }
    { sc with node_states := alset node_id st sc.node_states }

/-- Per-node body of `SpawnRateController.update_time`: on an expired
block, restore multiplier 1.0 and the base rate. -/
def expire_state (st : SpawnControlState) (now : ℚ) : SpawnControlState :=
  match st.blocked_until with
  | some bu =>
    if bu ≤ now then
      { st with is_blocked := false
                rate_multiplier := 1
                current_rate := st.base_rate
                blocked_until := none }
    else st
  | none => st

/-- `SpawnRateController.update_time`: expiry sweep over every node. -/
def SpawnRateController.update_time (sc : SpawnRateController)
    (current_time : ℚ) : SpawnRateController :=
  { sc with node_states := sc.node_states.map (fun p => (p.1, expire_state p.2 current_time)) }

/-! ## `Components/trigger_system.py` — spatial panic propagation -/

inductive TriggerType where
  | FALSE_ALARM
  | GATE_MALFUNCTION
  | EXTERNAL_EXPLOSION
  | WEATHER_CHANGE
  | INFRASTRUCTURE_FAILURE
  | PANIC_CHAIN_REACTION
deriving DecidableEq, Repr

/-- `TRIGGER_BEHAVIORS[trigger_type]["base_panic"]` (every known type
has an entry, so the `.get` default 0.5 is unreachable). -/
def base_panic : TriggerType → ℚ
  | .EXTERNAL_EXPLOSION => 9/10
  | .GATE_MALFUNCTION => 1/2
  | .FALSE_ALARM => 7/10
  | .WEATHER_CHANGE => 2/5
  | .INFRASTRUCTURE_FAILURE => 17/20
  | .PANIC_CHAIN_REACTION => 3/5

structure PanicPropagationConfig where
  spread_rate : ℚ
  decay_rate : ℚ
  max_propagation_depth : Nat
  min_panic_to_spread : ℚ
deriving Repr

/-- The `PanicPropagationConfig` dataclass defaults. -/
def defaultPropagationConfig : PanicPropagationConfig :=
  { spread_rate := 3/10
    decay_rate := 1/20
    max_propagation_depth := 3
    min_panic_to_spread := 1/10 }

structure Trigger where
  trigger_type : TriggerType
  time_seconds : ℚ
  affected_zones : List String
  severity : ℚ
  duration : ℚ
  trigger_id : String
deriving Repr

/-- `graph.neighbors(u)` of the digital-twin digraph: successors of `u`
in edge-insertion order. -/
def twinNeighbors (tw : DigitalTwin) (u : String) : List String :=
  (tw.edges.filter (fun e => e.1 == u)).map (fun e => e.2)

/-- The evolving state of the `propagate_panic` BFS: the worklist
queue of `(node_id, depth, panic_level)` entries, the visited set, the
`effects` record fields, the persistent `_node_panic_levels` map, the
simulator agents and the affected-agents counter. -/
structure PropState where
  queue : List (String × Nat × ℚ)
  visited : List String
  nodes_reached : List String
  panic_by_node : List (String × ℚ)
  node_panic_levels : List (String × ℚ)
  agents : List Agent
  affected_agents : Nat
deriving Repr

/-- The `while queue:` loop of `propagate_panic`, one queue entry per
fuel step: skip already-visited nodes and entries beyond the depth
limit or below the panic floor; otherwise record the zone, raise its
stored panic level, update every non-arrived agent located there, and
enqueue unvisited neighbours with the panic decayed by one hop. -/
def prop_loop (cfg : PanicPropagationConfig) (tw : DigitalTwin)
    (trigger_id : String) (current_time : ℚ) :
    Nat → PropState → PropState
  | 0, st => st
  | Nat.succ fuel, st =>
    match st.queue with
    | [] => st
    | (node_id, depth, panic_level) :: rest =>
      if node_id ∈ st.visited then
        prop_loop cfg tw trigger_id current_time fuel { st with queue := rest }
      else if cfg.max_propagation_depth < depth then
        prop_loop cfg tw trigger_id current_time fuel { st with queue := rest }
      else if panic_level < cfg.min_panic_to_spread then
        prop_loop cfg tw trigger_id current_time fuel { st with queue := rest }
      else
        let visited := st.visited ++ [node_id]
        let touched := st.agents.filter
          (fun a => a.current_node == node_id && !a.has_reached_goal)
        let agents := st.agents.map
          (fun a => if a.current_node == node_id && !a.has_reached_goal
            then a.update_panic panic_level trigger_id current_time else a)
        let nbrs := if node_id ∈ tw.nodes then
            (twinNeighbors tw node_id).filter (fun v => !(visited.contains v))
          else []
        prop_loop cfg tw trigger_id current_time fuel
          { queue := rest ++ nbrs.map
              (fun v => (v, depth + 1, panic_level * (1 - cfg.spread_rate)))
            visited := visited
            nodes_reached := st.nodes_reached ++ [node_id]
            panic_by_node := alset node_id panic_level st.panic_by_node
            node_panic_levels := alset node_id
              (max ((alget node_id st.node_panic_levels).getD 0) panic_level)
              st.node_panic_levels
            agents := agents
            affected_agents := st.affected_agents + touched.length }

/-- `TriggerSystem.propagate_panic`: seed the queue with the trigger's
affected zones (those present in `node_data`) at panic
`base_panic(type) × severity`, pre-record that level in
`_node_panic_levels`, then run the BFS loop.  The fuel bounds the total
number of queue entries ever processed (each node is visited at most
once and only visits enqueue). -/
def propagate_panic (cfg : PanicPropagationConfig) (tw : DigitalTwin)
    (node_panic_levels : List (String × ℚ)) (agents : List Agent)
    (trigger : Trigger) (current_time : ℚ) : PropState :=
  let base := base_panic trigger.trigger_type * trigger.severity
  let seeds := trigger.affected_zones.filter (fun z => (alget z tw.node_data).isSome)
  prop_loop cfg tw trigger.trigger_id current_time
    (seeds.length + (seeds.length + tw.edges.length) * (tw.edges.length + 1))
    { queue := seeds.map (fun z => (z, 0, base))
      visited := []
      nodes_reached := []
      panic_by_node := []
      node_panic_levels := seeds.foldl (fun m z => alset z base m) node_panic_levels
      agents := agents
      affected_agents := 0 }

/-- `v` is reachable from the seed set within `d` hops of the graph. -/
def WithinDist (tw : DigitalTwin) (seeds : List String) : Nat → String → Prop
  | 0, v => v ∈ seeds
  | d + 1, v => WithinDist tw seeds d v ∨
      ∃ u, WithinDist tw seeds d u ∧ u ∈ tw.nodes ∧ v ∈ twinNeighbors tw u

/-- `d` is the hop distance of `v` from the nearest seed zone. -/
def HopDist (tw : DigitalTwin) (seeds : List String) (v : String) (d : Nat) : Prop :=
  WithinDist tw seeds d v ∧ ∀ d' < d, ¬ WithinDist tw seeds d' v

/-- A depth passes the propagation guards: within the depth limit and
with the hop-decayed panic still at or above the spreading floor. -/
def PassDepth (cfg : PanicPropagationConfig) (base : ℚ) (d : Nat) : Prop :=
  d ≤ cfg.max_propagation_depth ∧
    cfg.min_panic_to_spread ≤ base * (1 - cfg.spread_rate) ^ d

/-- Depth of the queue head (`none` for an empty queue). -/
def Frontier : List (String × Nat × ℚ) → Option Nat
  | [] => none
  | (_, d, _) :: _ => some d

/-- `d` is at most the frontier (vacuously true of an empty queue). -/
def DepthLE (d : Nat) : Option Nat → Prop
  | none => True
  | some f => d ≤ f

/-- The loop invariant of the propagation BFS: queue entries carry the
hop-decayed panic of their depth and are reachable at that depth; the
queue is depth-sorted within two consecutive layers; recorded zones are
recorded exactly at their hop distance with the matching panic and
passing guards; recorded keys are the visited set; every distance up to
the frontier is either visited or enqueued at its distance; visited
nodes have all neighbours visited, enqueued one layer deeper, or
guard-rejected; and each agent is the original agent updated by its
zone's recorded panic exactly when that zone was reached. -/
structure PropInv (cfg : PanicPropagationConfig) (tw : DigitalTwin)
    (seeds : List String) (base : ℚ) (tid : String) (now : ℚ)
    (orig : List Agent) (st : PropState) : Prop where
  qval : ∀ e ∈ st.queue, e.2.2 = base * (1 - cfg.spread_rate) ^ e.2.1 ∧
    WithinDist tw seeds e.2.1 e.1
  qsort : st.queue.Pairwise (fun e1 e2 => e1.2.1 ≤ e2.2.1 ∧ e2.2.1 ≤ e1.2.1 + 1)
  rec_sound : ∀ v p, (v, p) ∈ st.panic_by_node →
    ∃ d, HopDist tw seeds v d ∧ p = base * (1 - cfg.spread_rate) ^ d ∧
      PassDepth cfg base d
  keys : ∀ z, (alget z st.panic_by_node).isSome ↔ z ∈ st.visited
  vis_sound : ∀ v ∈ st.visited, ∃ d, HopDist tw seeds v d ∧ PassDepth cfg base d
  complete : ∀ v d', HopDist tw seeds v d' → PassDepth cfg base d' →
    DepthLE d' (Frontier st.queue) →
    v ∈ st.visited ∨ ∃ p, (v, d', p) ∈ st.queue
  expanded : ∀ u ∈ st.visited, ∀ du, HopDist tw seeds u du → u ∈ tw.nodes →
    ∀ v ∈ twinNeighbors tw u,
      v ∈ st.visited ∨ (∃ p, (v, du + 1, p) ∈ st.queue) ∨
        ¬ PassDepth cfg base (du + 1)
  agents_ok : ∀ i : Nat, st.agents[i]? = (orig[i]?).map (fun a =>
    match alget a.current_node st.panic_by_node with
    | some p => if a.has_reached_goal = false then a.update_panic p tid now else a
    | none => a)

/-- All node ids the propagation queue can ever contain: the seed zones
and the targets of graph edges. -/
def PropUniverse (tw : DigitalTwin) (seeds : List String) : List String :=
  seeds ++ tw.edges.map (fun e => e.2)

/-- Structural invariant used to show the BFS fuel suffices: the
visited list holds distinct universe nodes and the queue holds universe
nodes. -/
def QueueInv (tw : DigitalTwin) (seeds : List String) (st : PropState) : Prop :=
  st.visited.Nodup ∧ (∀ v ∈ st.visited, v ∈ PropUniverse tw seeds) ∧
  (∀ e ∈ st.queue, e.1 ∈ PropUniverse tw seeds)

/-- Termination measure of the propagation loop: every step strictly
decreases it, so the chosen fuel drains the queue completely. -/
def propMeasure (tw : DigitalTwin) (seeds : List String) (st : PropState) : Nat :=
  st.queue.length +
    ((PropUniverse tw seeds).length - st.visited.length) * (tw.edges.length + 1)

/-! ## `simulation/simulator.py` — per-agent movement phase of `Simulator.step` -/

/-- The wait gate exactly as `Simulator.step` invokes it:
`agent.should_wait(current_density)` passes no current time, so the
blocking check runs against the Python default `current_time = 0.0`,
whatever the simulation clock reads. -/
def step_wait_gate (a : Agent) (current_density : ℚ) (wait_draw : ℚ) : Bool :=
  a.should_wait current_density 0 wait_draw

/-- The movement attempt of `Simulator.step`: the destination zone's
density gates the move (50% draw when above 3.0, 75% draw when above
2.0, unconditional below), then `move_to_next_node` applies the speed
draw.  When there is no next node the bare `move_to_next_node` call of
the `else` arm is a no-op. -/
def step_move_attempt (a : Agent) (next_density : ℚ)
    (density_draw speed_draw : ℚ) : Agent :=
  match a.get_next_node with
  | some _ =>
    if 3 < next_density then
      (if density_draw < 1/2 then a.move_to_next_node speed_draw else a)
    else if 2 < next_density then
      (if density_draw < 3/4 then a.move_to_next_node speed_draw else a)
    else a.move_to_next_node speed_draw
  | none => a.move_to_next_node speed_draw

/-- The density gate of the movement attempt, in isolation. -/
def step_move_gate (next_density : ℚ) (density_draw : ℚ) : Bool :=
  if 3 < next_density then decide (density_draw < 1/2)
  else if 2 < next_density then decide (density_draw < 3/4)
  else true

/-- Modelled from the claim wording, for comparison with the source
gate: the same density gate with inclusive thresholds (the claim states
the reductions for density ≥ 2.0 and ≥ 3.0). -/
def step_move_gate_claim (next_density : ℚ) (density_draw : ℚ) : Bool :=
  if 3 ≤ next_density then decide (density_draw < 1/2)
  else if 2 ≤ next_density then decide (density_draw < 3/4)
  else true

/-! ## Panic-operation interleavings (for the C2 invariant) -/

/-- An interleaving step on an agent: either a propagation update
(`update_panic`) or a decay tick (`decay_panic`). -/
inductive PanicOp where
  | update (new_level : ℚ) (source_id : String) (t : ℚ)
  | decay (t dt : ℚ)

/-- Validity of a step: decay ticks use a nonnegative time delta. -/
def PanicOp.valid : PanicOp → Prop
  | .update _ _ _ => True
  | .decay _ dt => 0 ≤ dt

def Agent.applyPanicOp (a : Agent) : PanicOp → Agent
  | .update l s t => a.update_panic l s t
  | .decay t dt => a.decay_panic t dt

def applyPanicOps (a : Agent) (ops : List PanicOp) : Agent :=
  ops.foldl Agent.applyPanicOp a

/-- The panic invariant preserved by every valid interleaving step. -/
def PanicInv (a : Agent) : Prop :=
  0 ≤ a.panic_level ∧ a.panic_level ≤ 1 ∧ 0 ≤ a.panic_decay_rate

/-! ## Theorems -/

theorem alget_alset_self {α : Type} (k : String) (v : α) (l : List (String × α)) :
    alget k (alset k v l) = some v := by
  induction l with
  | nil => simp [alget, alset]
  | cons hd tl ih =>
    obtain ⟨k', v'⟩ := hd
    by_cases h : k' = k
    · simp [alget, alset, h]
    · simp [alget, alset, h, ih]

theorem alget_alset_ne {α : Type} (k j : String) (v : α) (l : List (String × α))
    (h : j ≠ k) : alget j (alset k v l) = alget j l := by
  have hkj : k ≠ j := fun hc => h hc.symm
  induction l with
  | nil => simp [alget, alset, hkj]
  | cons hd tl ih =>
    obtain ⟨k', v'⟩ := hd
    by_cases hk : k' = k
    · subst hk
      simp [alget, alset, hkj]
    · simp only [alset, if_neg hk, alget]
      by_cases hj : k' = j
      · simp [hj]
      · simp [hj, ih]

theorem alget_map_snd {α β : Type} (k : String) (f : α → β) (l : List (String × α)) :
    alget k (l.map (fun p => (p.1, f p.2))) = (alget k l).map f := by
  induction l with
  | nil => simp [alget]
  | cons hd tl ih =>
    obtain ⟨k', v'⟩ := hd
    by_cases h : k' = k
    · simp [alget, h]
    · simp [alget, h, ih]

theorem update_panic_panic_level (a : Agent) (l : ℚ) (s : String) (t : ℚ) :
    (a.update_panic l s t).panic_level =
      if a.panic_level < l then min 1 l else a.panic_level := by
  unfold Agent.update_panic
  by_cases h : a.panic_level < l
  · simp [h, Agent.apply_panic_effects]
  · simp [h]

theorem update_panic_mono (a : Agent) (l : ℚ) (s : String) (t : ℚ)
    (h1 : a.panic_level ≤ 1) :
    a.panic_level ≤ (a.update_panic l s t).panic_level := by
  rw [update_panic_panic_level]
  by_cases h : a.panic_level < l
  · simp only [if_pos h]
    exact le_min h1 h.le
  · simp [h]

theorem update_panic_le_one (a : Agent) (l : ℚ) (s : String) (t : ℚ)
    (h1 : a.panic_level ≤ 1) :
    (a.update_panic l s t).panic_level ≤ 1 := by
  rw [update_panic_panic_level]
  by_cases h : a.panic_level < l
  · simp only [if_pos h]
    exact min_le_left _ _
  · simpa [h] using h1

theorem update_panic_nonneg (a : Agent) (l : ℚ) (s : String) (t : ℚ)
    (h0 : 0 ≤ a.panic_level) :
    0 ≤ (a.update_panic l s t).panic_level := by
  rw [update_panic_panic_level]
  by_cases h : a.panic_level < l
  · simp only [if_pos h]
    exact le_min (by norm_num) (h0.trans h.le)
  · simpa [h] using h0

theorem update_panic_decay_rate (a : Agent) (l : ℚ) (s : String) (t : ℚ) :
    (a.update_panic l s t).panic_decay_rate = a.panic_decay_rate := by
  unfold Agent.update_panic
  by_cases h : a.panic_level < l
  · simp [h, Agent.apply_panic_effects]
  · simp [h]

theorem decay_panic_panic_level (a : Agent) (t dt : ℚ) :
    (a.decay_panic t dt).panic_level =
      if a.panic_influenced_until < t ∧ 0 < a.panic_level then
        (if max 0 (a.panic_level - a.panic_decay_rate * dt) < 1/20 then 0
         else max 0 (a.panic_level - a.panic_decay_rate * dt))
      else a.panic_level := by
  unfold Agent.decay_panic Agent.restore_normal_behavior
  split_ifs <;> rfl

theorem decay_panic_le (a : Agent) (t dt : ℚ) (hdt : 0 ≤ dt)
    (hrate : 0 ≤ a.panic_decay_rate) :
    (a.decay_panic t dt).panic_level ≤ a.panic_level := by
  rw [decay_panic_panic_level]
  by_cases hc : a.panic_influenced_until < t ∧ 0 < a.panic_level
  · rw [if_pos hc]
    have hsub : a.panic_level - a.panic_decay_rate * dt ≤ a.panic_level := by
      nlinarith [mul_nonneg hrate hdt]
    by_cases hp : max 0 (a.panic_level - a.panic_decay_rate * dt) < 1/20
    · rw [if_pos hp]; exact hc.2.le
    · rw [if_neg hp]; exact max_le hc.2.le hsub
  · rw [if_neg hc]

theorem decay_panic_nonneg (a : Agent) (t dt : ℚ) (h0 : 0 ≤ a.panic_level) :
    0 ≤ (a.decay_panic t dt).panic_level := by
  rw [decay_panic_panic_level]
  by_cases hc : a.panic_influenced_until < t ∧ 0 < a.panic_level
  · rw [if_pos hc]
    by_cases hp : max 0 (a.panic_level - a.panic_decay_rate * dt) < 1/20
    · rw [if_pos hp]
    · rw [if_neg hp]; exact le_max_left _ _
  · rwa [if_neg hc]

theorem decay_panic_decay_rate (a : Agent) (t dt : ℚ) :
    (a.decay_panic t dt).panic_decay_rate = a.panic_decay_rate := by
  unfold Agent.decay_panic Agent.restore_normal_behavior
  split_ifs <;> rfl

theorem panicInv_applyPanicOp {a : Agent} {op : PanicOp}
    (h : PanicInv a) (hv : op.valid) : PanicInv (a.applyPanicOp op) := by
  obtain ⟨h0, h1, hr⟩ := h
  cases op with
  | update l s t =>
    exact ⟨update_panic_nonneg a l s t h0, update_panic_le_one a l s t h1,
      (update_panic_decay_rate a l s t).symm ▸ hr⟩
  | decay t dt =>
    refine ⟨decay_panic_nonneg a t dt h0, ?_, (decay_panic_decay_rate a t dt).symm ▸ hr⟩
    exact (decay_panic_le a t dt hv hr).trans h1

theorem panicInv_applyPanicOps {a : Agent} (ops : List PanicOp)
    (h : PanicInv a) (hv : ∀ op ∈ ops, op.valid) : PanicInv (applyPanicOps a ops) := by
  induction ops generalizing a with
  | nil => exact h
  | cons op rest ih =>
    exact ih (panicInv_applyPanicOp h (hv op (List.mem_cons_self op rest)))
      (fun o ho => hv o (List.mem_cons_of_mem op ho))

theorem panicInv_init (start goal : String) (sp pa : ℚ) :
    PanicInv (Agent.init start goal sp pa) := by
  unfold PanicInv Agent.init
  norm_num

/-- C2 — Panic bounds and monotonicity: `update_panic` never decreases the
panic level and caps it at 1.0; `decay_panic` with `dt ≥ 0` never
increases it and never takes it below 0; and starting from a freshly
constructed agent (panic 0), any interleaving of the two operations
keeps the panic level inside [0, 1]. -/
theorem panic_bounds_and_monotonicity :
    (∀ (a : Agent) (l : ℚ) (s : String) (t : ℚ), a.panic_level ≤ 1 →
      a.panic_level ≤ (a.update_panic l s t).panic_level ∧
      (a.update_panic l s t).panic_level ≤ 1) ∧
    (∀ (a : Agent) (t dt : ℚ), 0 ≤ dt → 0 ≤ a.panic_decay_rate →
      (a.decay_panic t dt).panic_level ≤ a.panic_level ∧
      (0 ≤ a.panic_level → 0 ≤ (a.decay_panic t dt).panic_level)) ∧
    (∀ (start goal : String) (sp pa : ℚ) (ops : List PanicOp),
      (∀ op ∈ ops, op.valid) →
      0 ≤ (applyPanicOps (Agent.init start goal sp pa) ops).panic_level ∧
      (applyPanicOps (Agent.init start goal sp pa) ops).panic_level ≤ 1) := by
  refine ⟨?_, ?_, ?_⟩
  · intro a l s t h1
    exact ⟨update_panic_mono a l s t h1, update_panic_le_one a l s t h1⟩
  · intro a t dt hdt hr
    exact ⟨decay_panic_le a t dt hdt hr, decay_panic_nonneg a t dt⟩
  · intro start goal sp pa ops hv
    have h := panicInv_applyPanicOps ops (panicInv_init start goal sp pa) hv
    exact ⟨h.1, h.2.1⟩

/-- Witness for C2 at a concrete agent, operation list and inputs. -/
theorem panic_bounds_and_monotonicity_witness :
    ((Agent.init "zone_A" "exit" (3/10) (7/10)).panic_level ≤
      ((Agent.init "zone_A" "exit" (3/10) (7/10)).update_panic (1/2) "trig_1" 0).panic_level ∧
      ((Agent.init "zone_A" "exit" (3/10) (7/10)).update_panic (1/2) "trig_1" 0).panic_level ≤ 1) ∧
    (((Agent.init "zone_A" "exit" (3/10) (7/10)).decay_panic 20 1).panic_level ≤
      (Agent.init "zone_A" "exit" (3/10) (7/10)).panic_level) ∧
    (0 ≤ (applyPanicOps (Agent.init "zone_A" "exit" (3/10) (7/10))
        [.update (1/2) "trig_1" 0, .decay 20 1]).panic_level ∧
      (applyPanicOps (Agent.init "zone_A" "exit" (3/10) (7/10))
        [.update (1/2) "trig_1" 0, .decay 20 1]).panic_level ≤ 1) := by
  refine ⟨panic_bounds_and_monotonicity.1 _ (1/2) "trig_1" 0 (by norm_num [Agent.init]), ?_, ?_⟩
  · exact (panic_bounds_and_monotonicity.2.1 _ 20 1 (by norm_num)
      (by norm_num [Agent.init])).1
  · refine panic_bounds_and_monotonicity.2.2 "zone_A" "exit" (3/10) (7/10) _ ?_
    intro op hop
    simp only [List.mem_cons, List.not_mem_nil, or_false] at hop
    rcases hop with rfl | rfl
    · trivial
    · show (0 : ℚ) ≤ 1
      norm_num

/-- C6 — Risk classification rules of `assess_risk`, honouring the rule
order: an active trigger forces HIGH for every action; CLOSE_INFLOW is
always HIGH; with no active trigger, THROTTLE_50 is MEDIUM unless the
density exceeds 5.0 (then HIGH), THROTTLE_25 is LOW, and REROUTE is LOW
below density 3.5 and MEDIUM at or above it. -/
theorem assess_risk_rules (action : String) (ctx : RiskContext) :
    (ctx.has_active_trigger = true → assess_risk action ctx = .HIGH) ∧
    assess_risk "CLOSE_INFLOW" ctx = .HIGH ∧
    (ctx.has_active_trigger = false →
      assess_risk "THROTTLE_50" ctx = (if 5 < ctx.density then .HIGH else .MEDIUM) ∧
      assess_risk "THROTTLE_25" ctx = .LOW ∧
      (ctx.density < 7/2 → assess_risk "REROUTE" ctx = .LOW) ∧
      (7/2 ≤ ctx.density → assess_risk "REROUTE" ctx = .MEDIUM)) := by
  refine ⟨?_, ?_, ?_⟩
  · intro htrig
    unfold assess_risk
    by_cases hb : ACTION_RISK_MAP action = .HIGH
    · simp [hb]
    · simp [hb, htrig]
  · simp [assess_risk, ACTION_RISK_MAP]
  · intro htrig
    refine ⟨?_, ?_, ?_, ?_⟩
    · by_cases hd : 5 < ctx.density
      · simp [assess_risk, ACTION_RISK_MAP, htrig, hd]
      · simp [assess_risk, ACTION_RISK_MAP, htrig, hd]
    · simp [assess_risk, ACTION_RISK_MAP, htrig]
    · intro hd
      have hd' : ¬ (7/2 : ℚ) ≤ ctx.density := not_le.mpr hd
      simp [assess_risk, ACTION_RISK_MAP, htrig, hd']
    · intro hd
      simp [assess_risk, ACTION_RISK_MAP, htrig, hd]

/-- Witness for C6 at concrete contexts. -/
theorem assess_risk_rules_witness :
    assess_risk "THROTTLE_25" ⟨(6 : ℚ), true⟩ = .HIGH ∧
    assess_risk "CLOSE_INFLOW" ⟨(1 : ℚ), false⟩ = .HIGH ∧
    assess_risk "THROTTLE_50" ⟨(6 : ℚ), false⟩ = (if (5 : ℚ) < 6 then .HIGH else .MEDIUM) ∧
    assess_risk "THROTTLE_25" ⟨(1 : ℚ), false⟩ = .LOW ∧
    assess_risk "REROUTE" ⟨(1 : ℚ), false⟩ = .LOW ∧
    assess_risk "REROUTE" ⟨(4 : ℚ), false⟩ = .MEDIUM := by
  refine ⟨(assess_risk_rules "THROTTLE_25" ⟨6, true⟩).1 rfl,
    (assess_risk_rules "NOOP" ⟨1, false⟩).2.1,
    ((assess_risk_rules "THROTTLE_50" ⟨6, false⟩).2.2 rfl).1,
    ((assess_risk_rules "THROTTLE_25" ⟨1, false⟩).2.2 rfl).2.1,
    ((assess_risk_rules "REROUTE" ⟨1, false⟩).2.2 rfl).2.2.1 (by norm_num),
    ((assess_risk_rules "REROUTE" ⟨4, false⟩).2.2 rfl).2.2.2 (by norm_num)⟩

/-- C10 — `update_node_count` is total: a missing node id is a no-op,
and a zone with area 0 gets density 0 (no division by zero is
reachable), count recorded and risk recomputed (density 0 is SAFE). -/
theorem update_node_count_total_zero_area (tw : DigitalTwin) (node_id : String)
    (count : Int) :
    (alget node_id tw.node_data = none → tw.update_node_count node_id count = tw) ∧
    (∀ nd, alget node_id tw.node_data = some nd → nd.area_m2 = 0 →
      ∃ nd', alget node_id (tw.update_node_count node_id count).node_data = some nd' ∧
        nd'.density = 0 ∧ nd'.current_count = count ∧ nd'.risk_level = "SAFE") := by
  constructor
  · intro h
    unfold DigitalTwin.update_node_count
    rw [h]
  · intro nd hget harea
    unfold DigitalTwin.update_node_count
    rw [hget]
    have hpos : ¬ (0 : ℚ) < nd.area_m2 := by rw [harea]; exact lt_irrefl 0
    refine ⟨_, by simpa using alget_alset_self node_id _ tw.node_data, ?_, rfl, ?_⟩
    · simp [hpos]
    · simp [hpos, calculate_risk]

/-- Witness for C10 on a one-zone twin whose zone has zero area. -/
theorem update_node_count_total_zero_area_witness :
    ∃ nd', alget "lobby"
        ((DigitalTwin.update_node_count
          ⟨["lobby"], [],
            [("lobby", ⟨0, 20, 0, "general", 0, "SAFE", false, 0⟩)]⟩
          "lobby" 7)).node_data = some nd' ∧
      nd'.density = 0 ∧ nd'.current_count = 7 ∧ nd'.risk_level = "SAFE" := by
  refine (update_node_count_total_zero_area
    ⟨["lobby"], [], [("lobby", ⟨0, 20, 0, "general", 0, "SAFE", false, 0⟩)]⟩
    "lobby" 7).2 ⟨0, 20, 0, "general", 0, "SAFE", false, 0⟩ ?_ rfl
  simp [alget]

/-- C3 — Minimum-interval rate limiting: with `min_interval_seconds = 5`
and no manual override, a proposal 2 time-units after the last recorded
intervention is rejected with a reason, and a `min_interval` violation
carrying the measured value 2 and the limit 5 is appended; the check
returns the structured outcome (it is a total function, so no exception
is raised). -/
theorem min_interval_rate_limit (fs : FailSafeMechanisms)
    (last : InterventionRecord) (iid aty nid : String) (t : ℚ)
    (hmin : fs.safety_constraints.min_interval_seconds = 5)
    (hlast : fs.intervention_history.getLast? = some last)
    (ht : last.applied_at = t) :
    check_safety_constraints fs iid aty nid (t + 2) false =
      ({ fs with violations := fs.violations ++
          [{ violation_type := "min_interval"
             intervention_id := some iid
             timestamp := t + 2
             constraint_name := "min_interval_seconds"
             actual_value := 2
             limit_value := 5
             was_blocked := true
             message := "Minimum interval violated" }] },
        false, some "Minimum interval violated") := by
  have harith : t + 2 - t = 2 := by ring
  unfold check_safety_constraints
  rw [hlast]
  simp only [Bool.false_and, Bool.false_eq_true, if_false, ht, hmin, harith]
  rw [if_pos (by norm_num : (2 : ℚ) < 5)]

/-- Witness for C3 at a concrete fail-safe state with a single recorded
intervention at time 0 and a second non-manual proposal at time 2. -/
theorem min_interval_rate_limit_witness :
    check_safety_constraints
      { FailSafeMechanisms.init with intervention_history :=
          [⟨"int_0", "THROTTLE_25", "gate_A", 0, [], [], true, false, none⟩] }
      "int_1" "THROTTLE_50" "gate_A" ((0 : ℚ) + 2) false =
      ({ { FailSafeMechanisms.init with intervention_history :=
            [⟨"int_0", "THROTTLE_25", "gate_A", 0, [], [], true, false, none⟩] } with
          violations :=
            ({ FailSafeMechanisms.init with intervention_history :=
                [⟨"int_0", "THROTTLE_25", "gate_A", 0, [], [], true, false, none⟩] }).violations ++
            [{ violation_type := "min_interval"
               intervention_id := some "int_1"
               timestamp := (0 : ℚ) + 2
               constraint_name := "min_interval_seconds"
               actual_value := 2
               limit_value := 5
               was_blocked := true
               message := "Minimum interval violated" }] },
        false, some "Minimum interval violated") :=
  min_interval_rate_limit _ _ "int_1" "THROTTLE_50" "gate_A" 0 rfl rfl rfl

theorem set_spawn_rate_blocked_until (sc : SpawnRateController) (node : String)
    (m D t : ℚ) (hD : D ≠ 0) :
    ∃ st, alget node ((sc.set_spawn_rate node m (some D) t).node_states) = some st ∧
      st.blocked_until = some (t + D) := by
  unfold SpawnRateController.set_spawn_rate
  cases hg : alget node sc.node_states with
  | some st0 =>
    simp only [hg, Option.isNone_some, Bool.false_eq_true, if_false]
    refine ⟨_, alget_alset_self node _ sc.node_states, ?_⟩
    by_cases hm : max 0 (min 1 m) = 0
    · simp [hm, pyTruthy, pyOr, hD]
    · simp [hm, pyTruthy, pyOr, hD]
  | none =>
    simp only [hg, Option.isNone_none, if_true]
    have hg' : alget node ((sc.initialize_node node none).node_states) = some
        { node_id := node
          base_rate := pyOr none sc.default_spawn_rate
          current_rate := pyOr none sc.default_spawn_rate
          rate_multiplier := 1
          is_blocked := false
          blocked_until := none
          total_spawned := 0
          total_blocked := 0 } := by
      unfold SpawnRateController.initialize_node
      rw [hg]
      exact alget_alset_self node _ sc.node_states
    rw [hg']
    refine ⟨_, alget_alset_self node _ _, ?_⟩
    by_cases hm : max 0 (min 1 m) = 0
    · simp [hm, pyTruthy, pyOr, hD]
    · simp [hm, pyTruthy, pyOr, hD]

/-- C9 (amended: any nonzero duration) — Spawn-rate expiry auto-restore:
after `set_spawn_rate(node, m, duration = D, current_time = t)` with
`m ∈ [0,1]` and `D ≠ 0`, every `update_time` call at a time
`t' ≥ t + D` restores the node's multiplier to 1.0 and its current rate
to its base rate, with no explicit restore call. -/
theorem spawn_rate_expiry_auto_restore (sc : SpawnRateController) (node : String)
    (m D t tp : ℚ) (hm0 : 0 ≤ m) (hm1 : m ≤ 1) (hD : D ≠ 0) (ht : t + D ≤ tp) :
    ∃ st, alget node
        (((sc.set_spawn_rate node m (some D) t).update_time tp).node_states) = some st ∧
      st.rate_multiplier = 1 ∧ st.current_rate = st.base_rate := by
  obtain ⟨st1, hget, hbu⟩ := set_spawn_rate_blocked_until sc node m D t hD
  unfold SpawnRateController.update_time
  dsimp only
  rw [alget_map_snd node (fun st => expire_state st tp)
    (sc.set_spawn_rate node m (some D) t).node_states, hget]
  refine ⟨_, rfl, ?_⟩
  unfold expire_state
  dsimp only
  rw [hbu]
  dsimp only
  rw [if_pos ht]
  exact ⟨rfl, rfl⟩

/-- C9 counterexample: with duration exactly 0 the source's `if duration:`
treats the override as permanent (`blocked_until = None`), so after
`update_time` at any later time the multiplier is still the override
value 0.5, not 1.0 as the claim requires for `t' ≥ t + D`, `D = 0`. -/
theorem spawn_rate_expiry_zero_duration_counterexample :
    (alget "entry_1"
        ((SpawnRateController.init.set_spawn_rate "entry_1" (1/2) (some 0) 0).update_time
          5).node_states).map SpawnControlState.rate_multiplier = some (1/2) ∧
      ((1 : ℚ)/2 ≠ 1) := by
  have hm : max 0 (min 1 ((1:ℚ)/2)) = 1/2 := by
    rw [min_eq_right (by norm_num : (1:ℚ)/2 ≤ 1), max_eq_right (by norm_num : (0:ℚ) ≤ 1/2)]
  constructor
  · simp only [SpawnRateController.update_time, SpawnRateController.set_spawn_rate,
      SpawnRateController.initialize_node, SpawnRateController.init, alget, alset,
      pyTruthy, pyOr, expire_state, hm]
    norm_num [alget]
  · norm_num

/-- Witness for C9 at a concrete controller, multiplier 0.5, duration 3,
expiry checked at time 10. -/
theorem spawn_rate_expiry_auto_restore_witness :
    (∃ st, alget "entry_1"
        (((SpawnRateController.init.set_spawn_rate "entry_1" (1/2) (some 3) 0).update_time
          10).node_states) = some st ∧
      st.rate_multiplier = 1 ∧ st.current_rate = st.base_rate) :=
  spawn_rate_expiry_auto_restore SpawnRateController.init "entry_1" (1/2) 3 0 10
    (by norm_num) (by norm_num) (by norm_num) (by norm_num)

/-- C1 — the rollback round-trip law fails in the code: a spawn-rate
intervention that passes the safety checks and is recorded (with the
pre-intervention multiplier 1.0 stored in `rollback_data`) is, on
rollback, marked rolled back and removed from the active set — but no
code path ever applies `rollback_data` to the spawn controller
(`rollback_intervention` neither receives nor returns controller state),
so the multiplier stays at the post-intervention 0.5 instead of the
pre-intervention 1.0. -/
theorem rollback_does_not_restore_rate :
    (check_safety_constraints FailSafeMechanisms.init
      "int_1" "THROTTLE_50" "gate_A" 0 false).2.1 = true ∧
    (alget "gate_A"
      (SpawnRateController.init.initialize_node "gate_A" none).node_states).map
      SpawnControlState.rate_multiplier = some 1 ∧
    (alget "gate_A"
      ((SpawnRateController.init.initialize_node "gate_A" none).set_spawn_rate
        "gate_A" (1/2) none 0).node_states).map
      SpawnControlState.rate_multiplier = some (1/2) ∧
    (rollback_intervention
        (record_intervention
          (check_safety_constraints FailSafeMechanisms.init
            "int_1" "THROTTLE_50" "gate_A" 0 false).1
          "int_1" "THROTTLE_50" "gate_A" 0
          [("rate_multiplier", 1/2)] [("rate_multiplier", 1)]).1
        (some "int_1") 1).2.map InterventionRecord.rolled_back = some true ∧
    alget "int_1"
      (rollback_intervention
        (record_intervention
          (check_safety_constraints FailSafeMechanisms.init
            "int_1" "THROTTLE_50" "gate_A" 0 false).1
          "int_1" "THROTTLE_50" "gate_A" 0
          [("rate_multiplier", 1/2)] [("rate_multiplier", 1)]).1
        (some "int_1") 1).1.active_interventions = none ∧
    ((1 : ℚ)/2 ≠ 1) := by
  have hm : max 0 (min 1 ((1:ℚ)/2)) = 1/2 := by
    rw [min_eq_right (by norm_num : (1:ℚ)/2 ≤ 1), max_eq_right (by norm_num : (0:ℚ) ≤ 1/2)]
  refine ⟨rfl, rfl, ?_, rfl, rfl, by norm_num⟩
  simp only [SpawnRateController.set_spawn_rate, SpawnRateController.initialize_node,
    SpawnRateController.init, alget, alset, pyTruthy, pyOr, hm]
  norm_num [alget]

theorem move_to_next_node_moves (a : Agent) (sd : ℚ) (nxt : String)
    (hnext : a.get_next_node = some nxt) (hsd : sd ≤ a.speed) :
    (a.move_to_next_node sd).path_index = a.path_index + 1 ∧
    (a.move_to_next_node sd).current_node = nxt := by
  simp only [Agent.move_to_next_node, hnext]
  rw [if_neg (not_lt.mpr hsd)]
  split_ifs <;> exact ⟨rfl, rfl⟩

theorem move_to_next_node_stays (a : Agent) (sd : ℚ) (hsd : a.speed < sd) :
    a.move_to_next_node sd = a := by
  cases hnext : a.get_next_node with
  | none => simp only [Agent.move_to_next_node, hnext]
  | some nxt =>
    simp only [Agent.move_to_next_node, hnext]
    rw [if_pos hsd]

/-- C4 — blocking in `Simulator.step`: the step loop calls
`should_wait(current_density)` without the current time, so the blocked
check compares against the default 0.0.  Any agent with a positive
blocked-until timestamp therefore waits (first conjunct, which covers
the claim's first half since blocked-until > T ≥ 0 implies it is
positive), but an agent whose block has already expired relative to the
simulation clock (blocked-until 5 ≤ T = 100) is still forced to wait —
`should_wait` itself, given the actual time, would not force it
(remaining conjuncts, refuting the claim's second half). -/
theorem step_blocking_ignores_current_time :
    (∀ (a : Agent) (density T w : ℚ), 0 ≤ T → T < a.blocked_until_time →
      step_wait_gate a density w = true) ∧
    step_wait_gate
      { Agent.init "zone_A" "exit" (3/10) (7/10) with blocked_until_time := 5 }
      0 (9/10) = true ∧
    Agent.should_wait
      { Agent.init "zone_A" "exit" (3/10) (7/10) with blocked_until_time := 5 }
      0 100 (9/10) = false ∧
    ((5 : ℚ) ≤ 100) := by
  refine ⟨?_, ?_, ?_, by norm_num⟩
  · intro a density T w hT hb
    unfold step_wait_gate Agent.should_wait
    rw [if_pos (lt_of_le_of_lt hT hb)]
  · unfold step_wait_gate Agent.should_wait
    rw [if_pos (by norm_num [Agent.init] : (0 : ℚ) <
      ({ Agent.init "zone_A" "exit" (3/10) (7/10) with
          blocked_until_time := 5 } : Agent).blocked_until_time)]
  · unfold Agent.should_wait
    rw [if_neg (by norm_num [Agent.init] : ¬ ((100 : ℚ) <
      ({ Agent.init "zone_A" "exit" (3/10) (7/10) with
          blocked_until_time := 5 } : Agent).blocked_until_time))]
    rw [if_pos (by norm_num [Agent.init] : (0 : ℚ) <
      ({ Agent.init "zone_A" "exit" (3/10) (7/10) with
          blocked_until_time := 5 } : Agent).preferred_personal_space)]

/-- Witness for C4 (instantiating the universally quantified conjunct at
a concrete blocked agent and step time). -/
theorem step_blocking_ignores_current_time_witness :
    step_wait_gate
      { Agent.init "zone_A" "exit" (3/10) (7/10) with blocked_until_time := 5 }
      (7/2) (1/10) = true :=
  step_blocking_ignores_current_time.1 _ (7/2) 3 (1/10) (by norm_num)
    (by norm_num [Agent.init])

/-- C8 (amended: the density thresholds are strict — the 0.75 draw
applies for destination density strictly above 2.0 and the 0.5 draw
strictly above 3.0; at density exactly 2.0 or below the attempt is not
density-reduced, and at exactly 3.0 the 0.75 draw applies) — a
non-waiting agent with a next path node advances exactly when the speed
draw succeeds and, where applicable, the density draw succeeds, and it
then moves to that next node. -/
theorem density_movement_probability (a : Agent) (nd dd sd : ℚ) (nxt : String)
    (hnext : a.get_next_node = some nxt) :
    ((step_move_attempt a nd dd sd).path_index = a.path_index + 1 ↔
      (sd ≤ a.speed ∧ (3 < nd → dd < 1/2) ∧ (2 < nd → nd ≤ 3 → dd < 3/4))) ∧
    ((step_move_attempt a nd dd sd).path_index = a.path_index + 1 →
      (step_move_attempt a nd dd sd).current_node = nxt) := by
  have hstay : ∀ (b : Agent), b.path_index ≠ b.path_index + 1 :=
    fun b => (Nat.succ_ne_self b.path_index).symm
  simp only [step_move_attempt, hnext]
  by_cases hsd : sd ≤ a.speed
  · obtain ⟨hpi, hcn⟩ := move_to_next_node_moves a sd nxt hnext hsd
    by_cases h3 : 3 < nd
    · rw [if_pos h3]
      by_cases hdd : dd < 1/2
      · rw [if_pos hdd]
        constructor
        · rw [hpi]
          simp only [true_iff]
          exact ⟨hsd, fun _ => hdd, fun h2 hle => absurd h3 (not_lt.mpr hle)⟩
        · intro _; exact hcn
      · rw [if_neg hdd]
        constructor
        · rw [iff_false_intro (hstay a)]
          simp only [false_iff]
          intro ⟨_, hc, _⟩
          exact hdd (hc h3)
        · intro hx; exact absurd hx (hstay a)
    · rw [if_neg h3]
      by_cases h2 : 2 < nd
      · rw [if_pos h2]
        by_cases hdd : dd < 3/4
        · rw [if_pos hdd]
          constructor
          · rw [hpi]
            simp only [true_iff]
            exact ⟨hsd, fun hc => absurd hc h3, fun _ _ => hdd⟩
          · intro _; exact hcn
        · rw [if_neg hdd]
          constructor
          · rw [iff_false_intro (hstay a)]
            simp only [false_iff]
            intro ⟨_, _, hc⟩
            exact hdd (hc h2 (not_lt.mp h3))
          · intro hx; exact absurd hx (hstay a)
      · rw [if_neg h2]
        constructor
        · rw [hpi]
          simp only [true_iff]
          exact ⟨hsd, fun hc => absurd hc h3, fun hc _ => absurd hc h2⟩
        · intro _; exact hcn
  · have hmv := move_to_next_node_stays a sd (not_le.mp hsd)
    have hiff : ¬ ((a.move_to_next_node sd).path_index = a.path_index + 1) := by
      rw [hmv]; exact hstay a
    split_ifs <;>
      first
        | exact ⟨iff_of_false hiff (fun hc => hsd hc.1), fun hx => absurd hx hiff⟩
        | exact ⟨iff_of_false (hstay a) (fun hc => hsd hc.1),
            fun hx => absurd hx (hstay a)⟩

/-- C8 counterexample: at destination density exactly 2.0 and density
draw 0.9 the claim-worded inclusive gate (density ≥ 2.0 ⇒ a 75% draw
applies, and 0.9 fails it) forbids the move, but the source's strict
gate does not reduce the attempt at density 2.0, and the agent with a
successful speed draw advances. -/
theorem density_movement_probability_counterexample :
    (step_move_attempt
      { Agent.init "A" "B" (3/10) (7/10) with path := some ["A", "B"], path_index := 0 }
      2 (9/10) (1/10)).path_index = 1 ∧
    step_move_gate_claim 2 (9/10) = false ∧
    step_move_gate 2 (9/10) = true := by
  refine ⟨?_, ?_, ?_⟩
  · have hnext : ({ Agent.init "A" "B" (3/10) (7/10) with
        path := some ["A", "B"], path_index := 0 } : Agent).get_next_node = some "B" := rfl
    have h := (move_to_next_node_moves _ (1/10) "B" hnext
      (by norm_num [Agent.init] : (1:ℚ)/10 ≤ _)).1
    unfold step_move_attempt
    rw [hnext]
    rw [if_neg (by norm_num : ¬ (3 : ℚ) < 2), if_neg (by norm_num : ¬ (2 : ℚ) < 2)]
    rw [h]
  · unfold step_move_gate_claim
    rw [if_neg (by norm_num : ¬ (3 : ℚ) ≤ 2), if_pos (by norm_num : (2 : ℚ) ≤ 2)]
    simp only [decide_eq_false_iff_not, not_lt]
    norm_num
  · unfold step_move_gate
    rw [if_neg (by norm_num : ¬ (3 : ℚ) < 2), if_neg (by norm_num : ¬ (2 : ℚ) < 2)]

/-- Witness for C8 at the same concrete agent and draws. -/
theorem density_movement_probability_witness :
    ((step_move_attempt
      { Agent.init "A" "B" (3/10) (7/10) with path := some ["A", "B"], path_index := 0 }
      2 (9/10) (1/10)).path_index =
      ({ Agent.init "A" "B" (3/10) (7/10) with
          path := some ["A", "B"], path_index := 0 } : Agent).path_index + 1 ↔
      ((1:ℚ)/10 ≤ ({ Agent.init "A" "B" (3/10) (7/10) with
          path := some ["A", "B"], path_index := 0 } : Agent).speed ∧
        ((3:ℚ) < 2 → (9:ℚ)/10 < 1/2) ∧
        ((2:ℚ) < 2 → (2:ℚ) ≤ 3 → (9:ℚ)/10 < 3/4))) :=
  (density_movement_probability
    { Agent.init "A" "B" (3/10) (7/10) with path := some ["A", "B"], path_index := 0 }
    2 (9/10) (1/10) "B" rfl).1

theorem alget_mem {α : Type} {z : String} {nd : α} {l : List (String × α)}
    (h : alget z l = some nd) : (z, nd) ∈ l := by
  induction l with
  | nil => simp [alget] at h
  | cons hd tl ih =>
    obtain ⟨k', v'⟩ := hd
    by_cases hk : k' = z
    · subst hk
      unfold alget at h
      rw [if_pos rfl, Option.some.injEq] at h
      subst h
      exact List.mem_cons_self _ _
    · simp only [alget, if_neg hk] at h
      exact List.mem_cons_of_mem _ (ih h)

theorem adjOf_mem {edges : List (String × String)} {nodes : List String}
    {u v : String} (h : v ∈ adjOf edges nodes u) : (u, v) ∈ edges ∧ v ∈ nodes := by
  unfold adjOf at h
  obtain ⟨e, he, rfl⟩ := List.mem_map.mp h
  obtain ⟨hmem, hcond⟩ := List.mem_filter.mp he
  rw [Bool.and_eq_true] at hcond
  obtain ⟨h1, h2⟩ := hcond
  have h1' : e.1 = u := by simpa using h1
  have h2' : e.2 ∈ nodes := by simpa using h2
  refine ⟨?_, h2'⟩
  have : e = (u, e.2) := by
    cases e with
    | mk a b => simp only at h1' ⊢; rw [h1']
  rw [← this]
  exact hmem

theorem bfs_loop_sound (nodes : List String) (edges : List (String × String))
    (s target : String) :
    ∀ (fuel : Nat) (queue : List (List String)) (visited : List String),
      (∀ p ∈ queue, RevOk nodes edges s p) →
      ∀ res, bfs_loop (adjOf edges nodes) target fuel queue visited = some res →
        res.head? = some s ∧ res.getLast? = some target ∧
        List.Chain' (fun u v => (u, v) ∈ edges) res ∧ ∀ z ∈ res, z ∈ nodes := by
  intro fuel
  induction fuel with
  | zero =>
    intro queue visited _ res h
    simp [bfs_loop] at h
  | succ n ih =>
    intro queue visited hq res h
    match queue with
    | [] => simp [bfs_loop] at h
    | p :: rest =>
      match p with
      | [] =>
        have h' : bfs_loop (adjOf edges nodes) target n rest visited = some res := h
        exact ih rest visited (fun q hq' => hq q (List.mem_cons_of_mem _ hq')) res h'
      | cur :: ptail =>
        by_cases hcur : cur = target
        · have hrev : some (cur :: ptail).reverse = some res := by
            simpa [bfs_loop, hcur] using h
          obtain ⟨hlast, hchain, hmem⟩ := hq (cur :: ptail) (List.mem_cons_self _ _)
          have hres : (cur :: ptail).reverse = res := Option.some.inj hrev
          subst hres
          refine ⟨?_, ?_, ?_, ?_⟩
          · rw [List.head?_reverse]
            exact hlast
          · rw [List.getLast?_reverse]
            simp [hcur]
          · rw [List.chain'_reverse]
            exact hchain
          · intro z hz
            exact hmem z (List.mem_reverse.mp hz)
        · have h' : bfs_loop (adjOf edges nodes) target n
              (rest ++ ((adjOf edges nodes cur).filter
                (fun v => !(visited.contains v))).map (fun v => v :: cur :: ptail))
              (visited ++ (adjOf edges nodes cur).filter
                (fun v => !(visited.contains v))) = some res := by
            simpa [bfs_loop, hcur] using h
          refine ih _ _ ?_ res h'
          intro q hq'
          rcases List.mem_append.mp hq' with hq1 | hq2
          · exact hq q (List.mem_cons_of_mem _ hq1)
          · obtain ⟨v, hv, rfl⟩ := List.mem_map.mp hq2
            have hvadj : v ∈ adjOf edges nodes cur := (List.mem_filter.mp hv).1
            obtain ⟨hedge, hvnodes⟩ := adjOf_mem hvadj
            obtain ⟨hlast, hchain, hmem⟩ := hq (cur :: ptail) (List.mem_cons_self _ _)
            refine ⟨?_, ?_, ?_⟩
            · rw [List.getLast?_cons_cons]
              exact hlast
            · exact List.chain'_cons.mpr ⟨hedge, hchain⟩
            · intro z hz
              rcases List.mem_cons.mp hz with rfl | hz'
              · exact hvnodes
              · exact hmem z hz'

theorem nx_shortest_path_sound (nodes : List String)
    (edges : List (String × String)) (s t : String)
    (hs : s ∈ nodes) (ht : t ∈ nodes) :
    ∃ r, nx_shortest_path nodes edges s t = .ok r ∧
      ∀ p, r = some p → p.head? = some s ∧ p.getLast? = some t ∧
        List.Chain' (fun u v => (u, v) ∈ edges) p ∧ ∀ z ∈ p, z ∈ nodes := by
  unfold nx_shortest_path
  rw [if_pos ⟨hs, ht⟩]
  refine ⟨_, rfl, ?_⟩
  intro p hp
  refine bfs_loop_sound nodes edges s t _ [[s]] [s] ?_ p hp
  intro q hq
  rcases List.mem_cons.mp hq with rfl | hq'
  · exact ⟨rfl, List.chain'_singleton s, fun z hz => by
      rcases List.mem_singleton.mp hz with rfl; exact hs⟩
  · simp at hq'

/-- C5 — Blocked-aware pathfinding: for zones `s`, `t` of the graph,
`get_shortest_path` returns a non-exceptional result (`Except.ok`); any
returned path starts at `s`, ends at `t`, follows graph edges, and
contains no currently-blocked zone other than `s` and `t` themselves;
and when no such route exists the result is the explicit no-path value
`none` (the caught `NetworkXNoPath`), not an exception. -/
theorem blocked_aware_pathfinding (tw : DigitalTwin) (s t : String)
    (hs : s ∈ tw.nodes) (ht : t ∈ tw.nodes) :
    ∃ r, tw.get_shortest_path s t = .ok r ∧
      (∀ p, r = some p → UnblockedRoute tw s t p) ∧
      ((¬ ∃ p, UnblockedRoute tw s t p) → r = none) := by
  have main : ∃ r, tw.get_shortest_path s t = .ok r ∧
      ∀ p, r = some p → UnblockedRoute tw s t p := by
    unfold DigitalTwin.get_shortest_path
    by_cases hb : ((tw.node_data.filter (fun p => p.2.is_blocked)).map Prod.fst).isEmpty
    · rw [if_pos hb]
      obtain ⟨r, hr, hsound⟩ := nx_shortest_path_sound tw.nodes tw.edges s t hs ht
      refine ⟨r, hr, ?_⟩
      intro p hp
      obtain ⟨h1, h2, h3, _⟩ := hsound p hp
      refine ⟨h1, h2, h3, ?_⟩
      intro z _ hblocked
      obtain ⟨nd, hnd, hndb⟩ := hblocked
      have : (z, nd) ∈ tw.node_data.filter (fun p => p.2.is_blocked) :=
        List.mem_filter.mpr ⟨alget_mem hnd, by simpa using hndb⟩
      have hzmem : z ∈ (tw.node_data.filter (fun p => p.2.is_blocked)).map Prod.fst :=
        List.mem_map.mpr ⟨(z, nd), this, rfl⟩
      rw [List.isEmpty_iff] at hb
      rw [hb] at hzmem
      simp at hzmem
    · rw [if_neg hb]
      by_cases hex : (((tw.node_data.filter (fun p => p.2.is_blocked)).map Prod.fst).filter
          (fun n => !(n == s) && !(n == t))).isEmpty
      · rw [if_pos hex]
        obtain ⟨r, hr, hsound⟩ := nx_shortest_path_sound tw.nodes tw.edges s t hs ht
        refine ⟨r, hr, ?_⟩
        intro p hp
        obtain ⟨h1, h2, h3, _⟩ := hsound p hp
        refine ⟨h1, h2, h3, ?_⟩
        intro z _ hblocked
        obtain ⟨nd, hnd, hndb⟩ := hblocked
        have hzb : z ∈ (tw.node_data.filter (fun p => p.2.is_blocked)).map Prod.fst :=
          List.mem_map.mpr ⟨(z, nd),
            List.mem_filter.mpr ⟨alget_mem hnd, by simpa using hndb⟩, rfl⟩
        by_contra hcon
        push_neg at hcon
        have hzex : z ∈ ((tw.node_data.filter (fun p => p.2.is_blocked)).map Prod.fst).filter
            (fun n => !(n == s) && !(n == t)) := by
          refine List.mem_filter.mpr ⟨hzb, ?_⟩
          simp [hcon.1, hcon.2]
        rw [List.isEmpty_iff] at hex
        rw [hex] at hzex
        simp at hzex
      · rw [if_neg hex]
        have hsa : s ∈ tw.nodes.filter (fun n =>
            !((((tw.node_data.filter (fun p => p.2.is_blocked)).map Prod.fst).filter
              (fun n => !(n == s) && !(n == t))).contains n)) := by
          refine List.mem_filter.mpr ⟨hs, ?_⟩
          simp
        have hta : t ∈ tw.nodes.filter (fun n =>
            !((((tw.node_data.filter (fun p => p.2.is_blocked)).map Prod.fst).filter
              (fun n => !(n == s) && !(n == t))).contains n)) := by
          refine List.mem_filter.mpr ⟨ht, ?_⟩
          simp
        obtain ⟨r, hr, hsound⟩ := nx_shortest_path_sound _ tw.edges s t hsa hta
        refine ⟨r, hr, ?_⟩
        intro p hp
        obtain ⟨h1, h2, h3, h4⟩ := hsound p hp
        refine ⟨h1, h2, h3, ?_⟩
        intro z hz hblocked
        obtain ⟨nd, hnd, hndb⟩ := hblocked
        have hzb : z ∈ (tw.node_data.filter (fun p => p.2.is_blocked)).map Prod.fst :=
          List.mem_map.mpr ⟨(z, nd),
            List.mem_filter.mpr ⟨alget_mem hnd, by simpa using hndb⟩, rfl⟩
        by_contra hcon
        push_neg at hcon
        have hzex : z ∈ (((tw.node_data.filter (fun p => p.2.is_blocked)).map Prod.fst).filter
            (fun n => !(n == s) && !(n == t))) := by
          refine List.mem_filter.mpr ⟨hzb, ?_⟩
          simp [hcon.1, hcon.2]
        have hzactive := h4 z hz
        have hcond := (List.mem_filter.mp hzactive).2
        have : z ∉ (((tw.node_data.filter (fun p => p.2.is_blocked)).map
            Prod.fst).filter (fun n => !(n == s) && !(n == t))) := by
          simpa using hcond
        exact this hzex
  obtain ⟨r, hr, hsound⟩ := main
  refine ⟨r, hr, hsound, ?_⟩
  intro hno
  cases r with
  | none => rfl
  | some p => exact absurd ⟨p, hsound p rfl⟩ hno

/-- Witness for C5 on a three-zone twin (A → B → C with B blocked, and
a direct edge A → C): the route around the blocked zone is returned,
and by the theorem it is an unblocked route. -/
theorem blocked_aware_pathfinding_witness :
    DigitalTwin.get_shortest_path
        ⟨["A", "B", "C"], [("A", "B"), ("B", "C"), ("A", "C")],
          [("A", ⟨10, 20, 0, "general", 0, "SAFE", false, 0⟩),
           ("B", ⟨10, 20, 0, "general", 0, "SAFE", true, 0⟩),
           ("C", ⟨10, 20, 0, "general", 0, "SAFE", false, 0⟩)]⟩ "A" "C" =
      .ok (some ["A", "C"]) ∧
    UnblockedRoute
      ⟨["A", "B", "C"], [("A", "B"), ("B", "C"), ("A", "C")],
        [("A", ⟨10, 20, 0, "general", 0, "SAFE", false, 0⟩),
         ("B", ⟨10, 20, 0, "general", 0, "SAFE", true, 0⟩),
         ("C", ⟨10, 20, 0, "general", 0, "SAFE", false, 0⟩)]⟩ "A" "C" ["A", "C"] := by
  obtain ⟨r, hr, hsound, _⟩ := blocked_aware_pathfinding
    ⟨["A", "B", "C"], [("A", "B"), ("B", "C"), ("A", "C")],
      [("A", ⟨10, 20, 0, "general", 0, "SAFE", false, 0⟩),
       ("B", ⟨10, 20, 0, "general", 0, "SAFE", true, 0⟩),
       ("C", ⟨10, 20, 0, "general", 0, "SAFE", false, 0⟩)]⟩ "A" "C"
    (by simp) (by simp)
  have hval : DigitalTwin.get_shortest_path
      ⟨["A", "B", "C"], [("A", "B"), ("B", "C"), ("A", "C")],
        [("A", ⟨10, 20, 0, "general", 0, "SAFE", false, 0⟩),
         ("B", ⟨10, 20, 0, "general", 0, "SAFE", true, 0⟩),
         ("C", ⟨10, 20, 0, "general", 0, "SAFE", false, 0⟩)]⟩ "A" "C" =
      .ok (some ["A", "C"]) := rfl
  refine ⟨hval, ?_⟩
  have hr' : r = some ["A", "C"] := by
    rw [hval] at hr
    exact (Except.ok.injEq _ _).mp hr.symm
  exact hsound ["A", "C"] hr'

theorem withinDist_mono {tw : DigitalTwin} {seeds : List String} {v : String}
    {d1 d2 : Nat} (h : d1 ≤ d2) (hw : WithinDist tw seeds d1 v) :
    WithinDist tw seeds d2 v := by
  induction d2 with
  | zero => rwa [Nat.le_zero.mp h] at hw
  | succ n ih =>
    rcases Nat.le_succ_iff.mp h with hle | rfl
    · exact Or.inl (ih hle)
    · exact hw

theorem withinDist_succ_of {tw : DigitalTwin} {seeds : List String}
    {u v : String} {d : Nat} (hu : WithinDist tw seeds d u)
    (hn : u ∈ tw.nodes) (hv : v ∈ twinNeighbors tw u) :
    WithinDist tw seeds (d + 1) v :=
  Or.inr ⟨u, hu, hn, hv⟩

theorem exists_hopDist {tw : DigitalTwin} {seeds : List String} {v : String}
    {d : Nat} (h : WithinDist tw seeds d v) :
    ∃ j, j ≤ d ∧ HopDist tw seeds v j := by
  induction d with
  | zero => exact ⟨0, le_refl 0, h, fun d' hd' => absurd hd' (Nat.not_lt_zero d')⟩
  | succ n ih =>
    by_cases hn : WithinDist tw seeds n v
    · obtain ⟨j, hj, hh⟩ := ih hn
      exact ⟨j, hj.trans (Nat.le_succ n), hh⟩
    · refine ⟨n + 1, le_refl _, h, ?_⟩
      intro d' hd' hw
      exact hn (withinDist_mono (Nat.lt_succ_iff.mp hd') hw)

theorem hopDist_unique {tw : DigitalTwin} {seeds : List String} {v : String}
    {d1 d2 : Nat} (h1 : HopDist tw seeds v d1) (h2 : HopDist tw seeds v d2) :
    d1 = d2 := by
  rcases Nat.lt_trichotomy d1 d2 with h | h | h
  · exact absurd h1.1 (h2.2 d1 h)
  · exact h
  · exact absurd h2.1 (h1.2 d2 h)

theorem hopDist_succ_pred {tw : DigitalTwin} {seeds : List String} {v : String}
    {d : Nat} (h : HopDist tw seeds v (d + 1)) :
    ∃ u, HopDist tw seeds u d ∧ u ∈ tw.nodes ∧ v ∈ twinNeighbors tw u := by
  rcases h.1 with hd | ⟨u, hu, hn, hv⟩
  · exact absurd hd (h.2 d (Nat.lt_succ_self d))
  · obtain ⟨j, hj, hh⟩ := exists_hopDist hu
    have hje : j = d := by
      by_contra hje
      have hjlt : j < d := lt_of_le_of_ne hj hje
      have : WithinDist tw seeds (j + 1) v := withinDist_succ_of hh.1 hn hv
      exact h.2 (j + 1) (Nat.succ_lt_succ hjlt)
        (withinDist_mono (le_refl _) this)
    subst hje
    exact ⟨u, hh, hn, hv⟩

theorem passDepth_mono {cfg : PanicPropagationConfig} {base : ℚ}
    (hr0 : 0 ≤ cfg.spread_rate) (hr1 : cfg.spread_rate ≤ 1) (hbase : 0 ≤ base)
    {d' d : Nat} (hle : d' ≤ d) (h : PassDepth cfg base d) :
    PassDepth cfg base d' := by
  refine ⟨hle.trans h.1, h.2.trans ?_⟩
  have h0 : (0 : ℚ) ≤ 1 - cfg.spread_rate := by linarith
  have h1 : (1 : ℚ) - cfg.spread_rate ≤ 1 := by linarith
  exact mul_le_mul_of_nonneg_left (pow_le_pow_of_le_one h0 h1 hle) hbase

theorem mem_alset_elim {α : Type} {v k : String} {p val : α}
    {l : List (String × α)} (h : (v, p) ∈ alset k val l) :
    (v = k ∧ p = val) ∨ (v, p) ∈ l := by
  induction l with
  | nil =>
    simp only [alset, List.mem_singleton, Prod.mk.injEq] at h
    exact Or.inl h
  | cons hd tl ih =>
    obtain ⟨k', v'⟩ := hd
    by_cases hk : k' = k
    · subst hk
      simp only [alset, if_pos rfl] at h
      rcases List.mem_cons.mp h with heq | hmem
      · rw [Prod.mk.injEq] at heq
        exact Or.inl heq
      · exact Or.inr (List.mem_cons_of_mem _ hmem)
    · simp only [alset, if_neg hk] at h
      rcases List.mem_cons.mp h with heq | hmem
      · exact Or.inr (List.mem_cons.mpr (Or.inl heq))
      · rcases ih hmem with h1 | h2
        · exact Or.inl h1
        · exact Or.inr (List.mem_cons_of_mem _ h2)

theorem update_panic_current_node (a : Agent) (l : ℚ) (s : String) (t : ℚ) :
    (a.update_panic l s t).current_node = a.current_node := by
  unfold Agent.update_panic Agent.apply_panic_effects
  split_ifs <;> rfl

theorem update_panic_has_reached_goal (a : Agent) (l : ℚ) (s : String) (t : ℚ) :
    (a.update_panic l s t).has_reached_goal = a.has_reached_goal := by
  unfold Agent.update_panic Agent.apply_panic_effects
  split_ifs <;> rfl

theorem queue_head_bound {st : PropState} {v0 : String} {d0 : Nat} {p0 : ℚ}
    {rest : List (String × Nat × ℚ)}
    (hsort : st.queue.Pairwise (fun e1 e2 => e1.2.1 ≤ e2.2.1 ∧ e2.2.1 ≤ e1.2.1 + 1))
    (hq : st.queue = (v0, d0, p0) :: rest) :
    ∀ e ∈ rest, d0 ≤ e.2.1 ∧ e.2.1 ≤ d0 + 1 := by
  rw [hq] at hsort
  exact (List.pairwise_cons.mp hsort).1

/-- Once the queue is empty, completeness beyond any finite cutoff
follows by induction on the distance, walking shortest-path
predecessors through the expansion closure of the visited set. -/
theorem complete_beyond {cfg : PanicPropagationConfig} {tw : DigitalTwin}
    {seeds : List String} {base : ℚ} {V : List String} {d0 : Nat}
    (hr0 : 0 ≤ cfg.spread_rate) (hr1 : cfg.spread_rate ≤ 1) (hbase : 0 ≤ base)
    (hexp : ∀ u ∈ V, ∀ du, HopDist tw seeds u du → u ∈ tw.nodes →
      ∀ v ∈ twinNeighbors tw u, v ∈ V ∨ ¬ PassDepth cfg base (du + 1))
    (hlow : ∀ v d', HopDist tw seeds v d' → PassDepth cfg base d' → d' ≤ d0 → v ∈ V) :
    ∀ d' v, HopDist tw seeds v d' → PassDepth cfg base d' → v ∈ V := by
  intro d'
  induction d' using Nat.strong_induction_on with
  | _ d' ih =>
    intro v hh hp
    by_cases hle : d' ≤ d0
    · exact hlow v d' hh hp hle
    · have hpos : d' ≠ 0 := by
        intro h0
        exact hle (h0 ▸ Nat.zero_le d0)
      obtain ⟨k, rfl⟩ := Nat.exists_eq_succ_of_ne_zero hpos
      obtain ⟨u, hu, hn, hv⟩ := hopDist_succ_pred hh
      have hup := passDepth_mono hr0 hr1 hbase (Nat.le_succ k) hp
      have huV := ih k (Nat.lt_succ_self k) u hu hup
      rcases hexp u huV k hu hn v hv with hvV | hnp
      · exact hvV
      · exact absurd hp hnp

theorem pop_hopDist {cfg : PanicPropagationConfig} {tw : DigitalTwin}
    {seeds : List String} {base : ℚ} {tid : String} {now : ℚ}
    {orig : List Agent} {st : PropState}
    (inv : PropInv cfg tw seeds base tid now orig st)
    {v0 : String} {d0 : Nat} {p0 : ℚ} {rest : List (String × Nat × ℚ)}
    (hq : st.queue = (v0, d0, p0) :: rest)
    (hnv : v0 ∉ st.visited)
    (hr0 : 0 ≤ cfg.spread_rate) (hr1 : cfg.spread_rate ≤ 1) (hbase : 0 ≤ base)
    (hpass : PassDepth cfg base d0) :
    HopDist tw seeds v0 d0 := by
  have hw : WithinDist tw seeds d0 v0 :=
    (inv.qval (v0, d0, p0) (hq ▸ List.mem_cons_self _ _)).2
  obtain ⟨j, hj, hh⟩ := exists_hopDist hw
  rcases eq_or_lt_of_le hj with rfl | hjlt
  · exact hh
  · exfalso
    have hpassj := passDepth_mono hr0 hr1 hbase (le_of_lt hjlt) hpass
    have hfr : DepthLE j (Frontier st.queue) := by
      rw [hq]
      exact le_of_lt hjlt
    rcases inv.complete v0 j hh hpassj hfr with hvv | ⟨p, hp⟩
    · exact hnv hvv
    · rw [hq] at hp
      rcases List.mem_cons.mp hp with heq | hmem
      · rw [Prod.mk.injEq] at heq
        have : j = d0 := by
          have h2 := heq.2
          rw [Prod.mk.injEq] at h2
          exact h2.1
        exact absurd this (Nat.ne_of_lt hjlt)
      · have := (queue_head_bound inv.qsort hq (v0, j, p) hmem).1
        exact absurd this (Nat.not_le.mpr hjlt)

theorem inv_skip {cfg : PanicPropagationConfig} {tw : DigitalTwin}
    {seeds : List String} {base : ℚ} {tid : String} {now : ℚ}
    {orig : List Agent} {st : PropState}
    (inv : PropInv cfg tw seeds base tid now orig st)
    {v0 : String} {d0 : Nat} {p0 : ℚ} {rest : List (String × Nat × ℚ)}
    (hq : st.queue = (v0, d0, p0) :: rest)
    (hr0 : 0 ≤ cfg.spread_rate) (hr1 : cfg.spread_rate ≤ 1) (hbase : 0 ≤ base)
    (hdisp : v0 ∈ st.visited ∨ ¬ PassDepth cfg base d0) :
    PropInv cfg tw seeds base tid now orig { st with queue := rest } := by
  have hbound := queue_head_bound inv.qsort hq
  -- the new expanded field
  have hexp' : ∀ u ∈ st.visited, ∀ du, HopDist tw seeds u du → u ∈ tw.nodes →
      ∀ v ∈ twinNeighbors tw u,
        v ∈ st.visited ∨ (∃ p, (v, du + 1, p) ∈ rest) ∨
          ¬ PassDepth cfg base (du + 1) := by
    intro u hu du hdu hn v hv
    rcases inv.expanded u hu du hdu hn v hv with h1 | ⟨p, hp⟩ | h3
    · exact Or.inl h1
    · rw [hq] at hp
      rcases List.mem_cons.mp hp with heq | hmem
      · rw [Prod.mk.injEq] at heq
        obtain ⟨rfl, heq2⟩ := heq
        rw [Prod.mk.injEq] at heq2
        rcases hdisp with hvis | hnp
        · exact Or.inl hvis
        · exact Or.inr (Or.inr (heq2.1 ▸ hnp))
      · exact Or.inr (Or.inl ⟨p, hmem⟩)
    · exact Or.inr (Or.inr h3)
  -- coverage of distances up to the popped depth
  have hlow : ∀ v d', HopDist tw seeds v d' → PassDepth cfg base d' → d' ≤ d0 →
      v ∈ st.visited ∨ ∃ p, (v, d', p) ∈ rest := by
    intro v d' hh hp hle
    have hfr : DepthLE d' (Frontier st.queue) := by
      rw [hq]
      exact hle
    rcases inv.complete v d' hh hp hfr with h1 | ⟨p, hpm⟩
    · exact Or.inl h1
    · rw [hq] at hpm
      rcases List.mem_cons.mp hpm with heq | hmem
      · rw [Prod.mk.injEq] at heq
        obtain ⟨rfl, heq2⟩ := heq
        rw [Prod.mk.injEq] at heq2
        obtain ⟨rfl, _⟩ := heq2
        rcases hdisp with hvis | hnp
        · exact Or.inl hvis
        · exact absurd hp hnp
      · exact Or.inr ⟨p, hmem⟩
  -- the depth-(d0+1) advance step, usable once every remaining entry
  -- is one layer deeper than the popped head
  have hadv : (∀ e ∈ rest, d0 + 1 ≤ e.2.1) →
      ∀ v, HopDist tw seeds v (d0 + 1) → PassDepth cfg base (d0 + 1) →
      v ∈ st.visited ∨ ∃ p, (v, d0 + 1, p) ∈ rest := by
    intro hdeep v hh hp
    obtain ⟨u, hu, hn, hv⟩ := hopDist_succ_pred hh
    have hpu := passDepth_mono hr0 hr1 hbase (Nat.le_succ d0) hp
    have hucov : u ∈ st.visited := by
      rcases hlow u d0 hu hpu (le_refl d0) with h1 | ⟨p, hpm⟩
      · exact h1
      · have hcon : d0 + 1 ≤ d0 := hdeep (u, d0, p) hpm
        omega
    rcases hexp' u hucov d0 hu hn v hv with h1 | h2 | h3
    · exact Or.inl h1
    · exact Or.inr h2
    · exact absurd hp h3
  refine ⟨?_, ?_, ?_, ?_, ?_, ?_, ?_, ?_⟩
  · intro e he
    exact inv.qval e (hq ▸ List.mem_cons_of_mem _ he)
  · exact (List.pairwise_cons.mp (hq ▸ inv.qsort)).2
  · exact inv.rec_sound
  · exact inv.keys
  · exact inv.vis_sound
  · -- complete
    intro v d' hh hp hfr
    cases hrest : rest with
    | nil =>
      have hexpnil : ∀ u ∈ st.visited, ∀ du, HopDist tw seeds u du →
          u ∈ tw.nodes → ∀ w ∈ twinNeighbors tw u,
            w ∈ st.visited ∨ ¬ PassDepth cfg base (du + 1) := by
        intro u hu du hdu hn w hw
        rcases hexp' u hu du hdu hn w hw with h1 | ⟨p, hpm⟩ | h3
        · exact Or.inl h1
        · rw [hrest] at hpm
          simp at hpm
        · exact Or.inr h3
      refine Or.inl ?_
      exact complete_beyond hr0 hr1 hbase hexpnil
        (fun w dw hhw hpw hlew => by
          rcases hlow w dw hhw hpw hlew with h1 | ⟨p, hpm⟩
          · exact h1
          · rw [hrest] at hpm
            simp at hpm) d' v hh hp
    | cons e1 tl =>
      have hf1 := hbound e1 (hrest ▸ List.mem_cons_self e1 tl)
      have hfr' : d' ≤ e1.2.1 := by
        rw [hrest] at hfr
        cases e1 with
        | mk a bc =>
          cases bc with
          | mk b c => exact hfr
      by_cases hle : d' ≤ d0
      · rcases hlow v d' hh hp hle with h1 | ⟨p, hpm⟩
        · exact Or.inl h1
        · rw [hrest] at hpm
          exact Or.inr ⟨p, hpm⟩
      · have hd' : d' = d0 + 1 := by omega
        have hdeep : ∀ e ∈ rest, d0 + 1 ≤ e.2.1 := by
          intro e he
          rw [hrest] at he
          rcases List.mem_cons.mp he with rfl | hetl
          · omega
          · have hrest_pairs : (e1 :: tl).Pairwise
                (fun e1 e2 => e1.2.1 ≤ e2.2.1 ∧ e2.2.1 ≤ e1.2.1 + 1) := by
              rw [← hrest]
              exact (List.pairwise_cons.mp (hq ▸ inv.qsort)).2
            have := ((List.pairwise_cons.mp hrest_pairs).1 e hetl).1
            omega
        subst hd'
        rcases hadv hdeep v hh hp with h1 | ⟨p, hpm⟩
        · exact Or.inl h1
        · rw [hrest] at hpm
          exact Or.inr ⟨p, hpm⟩
  · -- expanded
    exact hexp'
  · exact inv.agents_ok

theorem pairwise_of_total {α : Type} {R : α → α → Prop} (h : ∀ a b, R a b) :
    ∀ (l : List α), l.Pairwise R := by
  intro l
  induction l with
  | nil => exact List.Pairwise.nil
  | cons a t ih => exact List.Pairwise.cons (fun b _ => h a b) ih

theorem visit_agent_pointwise {pbn : List (String × ℚ)} {v0 : String}
    {p0 : ℚ} {tid : String} {now : ℚ} (a : Agent)
    (hnone : alget v0 pbn = none) :
    (fun a => if a.current_node == v0 && !a.has_reached_goal
      then a.update_panic p0 tid now else a)
      ((fun a =>
        match alget a.current_node pbn with
        | some p => if a.has_reached_goal = false then a.update_panic p tid now else a
        | none => a) a) =
    (fun a =>
      match alget a.current_node (alset v0 p0 pbn) with
      | some p => if a.has_reached_goal = false then a.update_panic p tid now else a
      | none => a) a := by
  dsimp only
  by_cases hc : a.current_node = v0
  · rw [hc, hnone, alget_alset_self]
    by_cases hg : a.has_reached_goal
    · simp [hg, hc]
    · simp [hg, hc]
  · rw [alget_alset_ne v0 a.current_node p0 pbn hc]
    cases hget : alget a.current_node pbn with
    | none =>
      simp only [hget]
      rw [if_neg]
      simp only [Bool.and_eq_true, beq_iff_eq, Bool.not_eq_true']
      intro hcon
      exact hc hcon.1
    | some p =>
      simp only [hget]
      by_cases hg : a.has_reached_goal
      · simp only [hg, Bool.true_eq_false, if_false, if_neg]
        rw [if_neg]
        simp only [Bool.and_eq_true, beq_iff_eq, Bool.not_eq_true']
        intro hcon
        exact hc hcon.1
      · have hg' : a.has_reached_goal = false := Bool.eq_false_iff.mpr hg
        simp only [hg', if_pos rfl]
        rw [if_neg]
        simp only [Bool.and_eq_true, beq_iff_eq, Bool.not_eq_true']
        intro hcon
        exact hc ((update_panic_current_node a p tid now) ▸ hcon.1)

theorem inv_visit {cfg : PanicPropagationConfig} {tw : DigitalTwin}
    {seeds : List String} {base : ℚ} {tid : String} {now : ℚ}
    {orig : List Agent} {st : PropState}
    (inv : PropInv cfg tw seeds base tid now orig st)
    {v0 : String} {d0 : Nat} {p0 : ℚ} {rest : List (String × Nat × ℚ)}
    (hq : st.queue = (v0, d0, p0) :: rest)
    (hnv : v0 ∉ st.visited)
    (hr0 : 0 ≤ cfg.spread_rate) (hr1 : cfg.spread_rate ≤ 1) (hbase : 0 ≤ base)
    (hpass : PassDepth cfg base d0) :
    PropInv cfg tw seeds base tid now orig
      { queue := rest ++ (if v0 ∈ tw.nodes then
            (twinNeighbors tw v0).filter
              (fun v => !((st.visited ++ [v0]).contains v))
          else []).map (fun v => (v, d0 + 1, p0 * (1 - cfg.spread_rate)))
        visited := st.visited ++ [v0]
        nodes_reached := st.nodes_reached ++ [v0]
        panic_by_node := alset v0 p0 st.panic_by_node
        node_panic_levels := alset v0
          (max ((alget v0 st.node_panic_levels).getD 0) p0) st.node_panic_levels
        agents := st.agents.map
          (fun a => if a.current_node == v0 && !a.has_reached_goal
            then a.update_panic p0 tid now else a)
        affected_agents := st.affected_agents +
          (st.agents.filter
            (fun a => a.current_node == v0 && !a.has_reached_goal)).length } := by
  have hbound := queue_head_bound inv.qsort hq
  have hd0 : HopDist tw seeds v0 d0 := pop_hopDist inv hq hnv hr0 hr1 hbase hpass
  have hp0 : p0 = base * (1 - cfg.spread_rate) ^ d0 :=
    (inv.qval (v0, d0, p0) (hq ▸ List.mem_cons_self _ _)).1
  have hw0 : WithinDist tw seeds d0 v0 :=
    (inv.qval (v0, d0, p0) (hq ▸ List.mem_cons_self _ _)).2
  have hnone : alget v0 st.panic_by_node = none := by
    cases hg : alget v0 st.panic_by_node with
    | none => rfl
    | some p =>
      exact absurd ((inv.keys v0).mp (by rw [hg]; exact rfl)) hnv
  -- membership facts about the freshly enqueued entries
  have hnews_mem : ∀ e ∈ (if v0 ∈ tw.nodes then
        (twinNeighbors tw v0).filter
          (fun v => !((st.visited ++ [v0]).contains v))
      else []).map (fun v => (v, d0 + 1, p0 * (1 - cfg.spread_rate))),
      ∃ w, e = (w, d0 + 1, p0 * (1 - cfg.spread_rate)) ∧
        v0 ∈ tw.nodes ∧ w ∈ twinNeighbors tw v0 ∧ w ∉ st.visited ++ [v0] := by
    intro e he
    by_cases hn : v0 ∈ tw.nodes
    · rw [if_pos hn] at he
      obtain ⟨w, hw, rfl⟩ := List.mem_map.mp he
      obtain ⟨hw1, hw2⟩ := List.mem_filter.mp hw
      refine ⟨w, rfl, hn, hw1, ?_⟩
      intro hcon
      rw [Bool.not_eq_true'] at hw2
      rw [Bool.eq_false_iff] at hw2
      exact hw2 (by simpa using hcon)
    · rw [if_neg hn] at he
      simp at he
  -- any unvisited neighbour of the popped node gets enqueued
  have hnews_of : ∀ w, v0 ∈ tw.nodes → w ∈ twinNeighbors tw v0 →
      w ∉ st.visited ++ [v0] →
      (w, d0 + 1, p0 * (1 - cfg.spread_rate)) ∈ (if v0 ∈ tw.nodes then
        (twinNeighbors tw v0).filter
          (fun v => !((st.visited ++ [v0]).contains v))
      else []).map (fun v => (v, d0 + 1, p0 * (1 - cfg.spread_rate))) := by
    intro w hn hw hnv'
    rw [if_pos hn]
    refine List.mem_map.mpr ⟨w, ?_, rfl⟩
    refine List.mem_filter.mpr ⟨hw, ?_⟩
    simp only [Bool.not_eq_true']
    rw [Bool.eq_false_iff]
    intro hcon
    exact hnv' (by simpa using hcon)
  have hval : p0 * (1 - cfg.spread_rate) = base * (1 - cfg.spread_rate) ^ (d0 + 1) := by
    rw [hp0, pow_succ]
    ring
  refine ⟨?_, ?_, ?_, ?_, ?_, ?_, ?_, ?_⟩
  · -- qval
    intro e he
    rcases List.mem_append.mp he with h1 | h2
    · exact inv.qval e (hq ▸ List.mem_cons_of_mem _ h1)
    · obtain ⟨w, rfl, hn, hw, _⟩ := hnews_mem e h2
      exact ⟨hval, withinDist_succ_of hw0 hn hw⟩
  · -- qsort
    refine List.pairwise_append.mpr ⟨?_, ?_, ?_⟩
    · exact (List.pairwise_cons.mp (hq ▸ inv.qsort)).2
    · by_cases hn : v0 ∈ tw.nodes
      · rw [if_pos hn]
        rw [List.pairwise_map]
        exact pairwise_of_total (fun a b => ⟨le_refl _, Nat.le_succ _⟩) _
      · rw [if_neg hn]
        exact List.Pairwise.nil
    · intro e1 he1 e2 he2
      obtain ⟨w, rfl, _, _, _⟩ := hnews_mem e2 he2
      have hb := hbound e1 he1
      exact ⟨hb.2, Nat.succ_le_succ hb.1⟩
  · -- rec_sound
    intro v p hvp
    rcases mem_alset_elim hvp with ⟨rfl, rfl⟩ | hold
    · exact ⟨d0, hd0, hp0, hpass⟩
    · exact inv.rec_sound v p hold
  · -- keys
    intro z
    by_cases hz : z = v0
    · subst hz
      rw [alget_alset_self]
      simp
    · rw [alget_alset_ne v0 z p0 _ hz]
      rw [inv.keys z]
      constructor
      · intro h
        exact List.mem_append.mpr (Or.inl h)
      · intro h
        rcases List.mem_append.mp h with h1 | h2
        · exact h1
        · exact absurd (List.mem_singleton.mp h2) hz
  · -- vis_sound
    intro v hv
    rcases List.mem_append.mp hv with h1 | h2
    · exact inv.vis_sound v h1
    · rw [List.mem_singleton.mp h2]
      exact ⟨d0, hd0, hpass⟩
  · -- complete
    intro v d' hh hp hfr
    -- coverage of depths up to d0 after the visit
    have hlow : ∀ w dw, HopDist tw seeds w dw → PassDepth cfg base dw → dw ≤ d0 →
        w ∈ st.visited ++ [v0] ∨
          ∃ p, (w, dw, p) ∈ rest := by
      intro w dw hhw hpw hlew
      have hfro : DepthLE dw (Frontier st.queue) := by
        rw [hq]
        exact hlew
      rcases inv.complete w dw hhw hpw hfro with h1 | ⟨p, hpm⟩
      · exact Or.inl (List.mem_append.mpr (Or.inl h1))
      · rw [hq] at hpm
        rcases List.mem_cons.mp hpm with heq | hmem
        · rw [Prod.mk.injEq] at heq
          obtain ⟨rfl, _⟩ := heq
          exact Or.inl (List.mem_append.mpr (Or.inr (List.mem_singleton.mpr rfl)))
        · exact Or.inr ⟨p, hmem⟩
    -- the new expanded property, needed for both remaining cases
    have hexp' : ∀ u ∈ st.visited ++ [v0], ∀ du, HopDist tw seeds u du →
        u ∈ tw.nodes → ∀ w ∈ twinNeighbors tw u,
          w ∈ st.visited ++ [v0] ∨
            (∃ p, (w, du + 1, p) ∈ rest ++ (if v0 ∈ tw.nodes then
              (twinNeighbors tw v0).filter
                (fun v => !((st.visited ++ [v0]).contains v))
            else []).map (fun v => (v, d0 + 1, p0 * (1 - cfg.spread_rate)))) ∨
            ¬ PassDepth cfg base (du + 1) := by
      intro u hu du hdu hn w hw
      rcases List.mem_append.mp hu with hu1 | hu2
      · rcases inv.expanded u hu1 du hdu hn w hw with h1 | ⟨p, hpm⟩ | h3
        · exact Or.inl (List.mem_append.mpr (Or.inl h1))
        · rw [hq] at hpm
          rcases List.mem_cons.mp hpm with heq | hmem
          · rw [Prod.mk.injEq] at heq
            obtain ⟨rfl, _⟩ := heq
            exact Or.inl (List.mem_append.mpr (Or.inr (List.mem_singleton.mpr rfl)))
          · exact Or.inr (Or.inl ⟨p, List.mem_append.mpr (Or.inl hmem)⟩)
        · exact Or.inr (Or.inr h3)
      · have hu0 : u = v0 := List.mem_singleton.mp hu2
        rw [hu0] at hdu hn hw
        have hdu0 : du = d0 := hopDist_unique hdu hd0
        subst hdu0
        by_cases hwv : w ∈ st.visited ++ [v0]
        · exact Or.inl hwv
        · exact Or.inr (Or.inl ⟨p0 * (1 - cfg.spread_rate),
            List.mem_append.mpr (Or.inr (hnews_of w hn hw hwv))⟩)
    -- the advance step to depth d0+1, needing no d0-entries in rest
    have hadv : (∀ e ∈ rest, d0 + 1 ≤ e.2.1) →
        ∀ w, HopDist tw seeds w (d0 + 1) → PassDepth cfg base (d0 + 1) →
        w ∈ st.visited ++ [v0] ∨
          ∃ p, (w, d0 + 1, p) ∈ rest ++ (if v0 ∈ tw.nodes then
            (twinNeighbors tw v0).filter
              (fun v => !((st.visited ++ [v0]).contains v))
          else []).map (fun v => (v, d0 + 1, p0 * (1 - cfg.spread_rate))) := by
      intro hdeep w hhw hpw
      obtain ⟨u, hu, hn, hwnb⟩ := hopDist_succ_pred hhw
      have hpu := passDepth_mono hr0 hr1 hbase (Nat.le_succ d0) hpw
      have hucov : u ∈ st.visited ++ [v0] := by
        rcases hlow u d0 hu hpu (le_refl d0) with h1 | ⟨p, hpm⟩
        · exact h1
        · have hcon : d0 + 1 ≤ d0 := hdeep (u, d0, p) hpm
          omega
      rcases hexp' u hucov d0 hu hn w hwnb with h1 | h2 | h3
      · exact Or.inl h1
      · exact Or.inr h2
      · exact absurd hpw h3
    -- case analysis on the shape of the new queue
    cases hqn : rest ++ (if v0 ∈ tw.nodes then
        (twinNeighbors tw v0).filter
          (fun v => !((st.visited ++ [v0]).contains v))
      else []).map (fun v => (v, d0 + 1, p0 * (1 - cfg.spread_rate))) with
    | nil =>
      have hexpnil : ∀ u ∈ st.visited ++ [v0], ∀ du, HopDist tw seeds u du →
          u ∈ tw.nodes → ∀ w ∈ twinNeighbors tw u,
            w ∈ st.visited ++ [v0] ∨ ¬ PassDepth cfg base (du + 1) := by
        intro u hu du hdu hn w hw
        rcases hexp' u hu du hdu hn w hw with h1 | ⟨p, hpm⟩ | h3
        · exact Or.inl h1
        · rw [hqn] at hpm
          simp at hpm
        · exact Or.inr h3
      refine Or.inl ?_
      have hrestnil : ∀ (x : String × Nat × ℚ), x ∉ rest := by
        intro x hx
        have : x ∈ rest ++ (if v0 ∈ tw.nodes then
            (twinNeighbors tw v0).filter
              (fun v => !((st.visited ++ [v0]).contains v))
          else []).map (fun v => (v, d0 + 1, p0 * (1 - cfg.spread_rate))) :=
          List.mem_append.mpr (Or.inl hx)
        rw [hqn] at this
        simp at this
      exact complete_beyond hr0 hr1 hbase hexpnil
        (fun w dw hhw hpw hlew => by
          rcases hlow w dw hhw hpw hlew with h1 | ⟨p, hpm⟩
          · exact h1
          · exact absurd hpm (hrestnil _)) d' v hh hp
    | cons e1 tl =>
      have he1mem : e1 ∈ rest ++ (if v0 ∈ tw.nodes then
          (twinNeighbors tw v0).filter
            (fun v => !((st.visited ++ [v0]).contains v))
        else []).map (fun v => (v, d0 + 1, p0 * (1 - cfg.spread_rate))) := by
        rw [hqn]
        exact List.mem_cons_self e1 tl
      have he1d : d0 ≤ e1.2.1 ∧ e1.2.1 ≤ d0 + 1 := by
        rcases List.mem_append.mp he1mem with h1 | h2
        · exact hbound e1 h1
        · obtain ⟨w, rfl, _, _, _⟩ := hnews_mem e1 h2
          exact ⟨Nat.le_succ d0, le_refl _⟩
      have hfr' : d' ≤ e1.2.1 := by
        rw [hqn] at hfr
        cases e1 with
        | mk a bc =>
          cases bc with
          | mk b c => exact hfr
      by_cases hle : d' ≤ d0
      · rcases hlow v d' hh hp hle with h1 | ⟨p, hpm⟩
        · exact Or.inl h1
        · refine Or.inr ⟨p, ?_⟩
          rw [← hqn]
          exact List.mem_append.mpr (Or.inl hpm)
      · have hd' : d' = d0 + 1 := by omega
        have hdeep : ∀ e ∈ rest, d0 + 1 ≤ e.2.1 := by
          intro e he
          have hb := hbound e he
          -- if some rest entry had depth d0, the head e1 of the new
          -- queue would have depth ≥ d' = d0+1 yet rest starts the
          -- append, so e1 is that first rest entry, forcing d0+1 ≤ d0
          rcases Nat.lt_or_ge e.2.1 (d0 + 1) with hlt | hge
          · exfalso
            have hed0 : e.2.1 = d0 := by omega
            -- e1 is the head of rest ++ news; since rest ≠ [], e1 ∈ rest
            cases hrest : rest with
            | nil =>
              rw [hrest] at he
              simp at he
            | cons r1 rtl =>
              have he1r : e1 = r1 := by
                rw [hrest] at hqn
                rw [List.cons_append] at hqn
                exact (List.cons.injEq e1 tl r1 _).mp hqn.symm |>.1
              -- r1 comes before or equals e in rest, so r1.depth ≤ e.depth
              have hr1d : r1.2.1 ≤ e.2.1 := by
                rw [hrest] at he
                rcases List.mem_cons.mp he with rfl | hetl
                · exact le_refl _
                · have hpw : (r1 :: rtl).Pairwise
                      (fun e1 e2 => e1.2.1 ≤ e2.2.1 ∧ e2.2.1 ≤ e1.2.1 + 1) := by
                    rw [← hrest]
                    exact (List.pairwise_cons.mp (hq ▸ inv.qsort)).2
                  exact ((List.pairwise_cons.mp hpw).1 e hetl).1
              rw [← he1r] at hr1d
              omega
          · exact hge
        subst hd'
        rcases hadv hdeep v hh hp with h1 | ⟨p, hpm⟩
        · exact Or.inl h1
        · refine Or.inr ⟨p, ?_⟩
          rw [← hqn]
          exact hpm
  · -- expanded: same argument as inside complete, restated
    intro u hu du hdu hn w hw
    rcases List.mem_append.mp hu with hu1 | hu2
    · rcases inv.expanded u hu1 du hdu hn w hw with h1 | ⟨p, hpm⟩ | h3
      · exact Or.inl (List.mem_append.mpr (Or.inl h1))
      · rw [hq] at hpm
        rcases List.mem_cons.mp hpm with heq | hmem
        · rw [Prod.mk.injEq] at heq
          obtain ⟨rfl, _⟩ := heq
          exact Or.inl (List.mem_append.mpr (Or.inr (List.mem_singleton.mpr rfl)))
        · exact Or.inr (Or.inl ⟨p, List.mem_append.mpr (Or.inl hmem)⟩)
      · exact Or.inr (Or.inr h3)
    · have hu0 : u = v0 := List.mem_singleton.mp hu2
      rw [hu0] at hdu hn hw
      have hdu0 : du = d0 := hopDist_unique hdu hd0
      subst hdu0
      by_cases hwv : w ∈ st.visited ++ [v0]
      · exact Or.inl hwv
      · exact Or.inr (Or.inl ⟨p0 * (1 - cfg.spread_rate),
          List.mem_append.mpr (Or.inr (hnews_of w hn hw hwv))⟩)
  · -- agents_ok
    intro i
    rw [List.getElem?_map, inv.agents_ok i]
    cases horig : orig[i]? with
    | none => rfl
    | some a =>
      exact congrArg some (visit_agent_pointwise a hnone)

theorem inv_prop_loop {cfg : PanicPropagationConfig} {tw : DigitalTwin}
    {seeds : List String} {base : ℚ} {tid : String} {now : ℚ}
    {orig : List Agent}
    (hr0 : 0 ≤ cfg.spread_rate) (hr1 : cfg.spread_rate ≤ 1) (hbase : 0 ≤ base) :
    ∀ (fuel : Nat) (st : PropState),
      PropInv cfg tw seeds base tid now orig st →
      PropInv cfg tw seeds base tid now orig (prop_loop cfg tw tid now fuel st) := by
  intro fuel
  induction fuel with
  | zero =>
    intro st inv
    exact inv
  | succ n ih =>
    intro st inv
    cases hq : st.queue with
    | nil =>
      have heq : prop_loop cfg tw tid now (n + 1) st = st := by
        rw [prop_loop, hq]
      rw [heq]
      exact inv
    | cons e rest =>
      obtain ⟨v0, d0, p0⟩ := e
      have hp0 : p0 = base * (1 - cfg.spread_rate) ^ d0 :=
        (inv.qval (v0, d0, p0) (hq ▸ List.mem_cons_self _ _)).1
      by_cases hv : v0 ∈ st.visited
      · have heq : prop_loop cfg tw tid now (n + 1) st =
            prop_loop cfg tw tid now n { st with queue := rest } := by
          rw [prop_loop, hq]
          dsimp only
          rw [if_pos hv]
        rw [heq]
        exact ih _ (inv_skip inv hq hr0 hr1 hbase (Or.inl hv))
      · by_cases hd : cfg.max_propagation_depth < d0
        · have heq : prop_loop cfg tw tid now (n + 1) st =
              prop_loop cfg tw tid now n { st with queue := rest } := by
            rw [prop_loop, hq]
            dsimp only
            rw [if_neg hv, if_pos hd]
          rw [heq]
          refine ih _ (inv_skip inv hq hr0 hr1 hbase (Or.inr ?_))
          intro hpass
          exact absurd hpass.1 (Nat.not_le.mpr hd)
        · by_cases hplow : p0 < cfg.min_panic_to_spread
          · have heq : prop_loop cfg tw tid now (n + 1) st =
                prop_loop cfg tw tid now n { st with queue := rest } := by
              rw [prop_loop, hq]
              dsimp only
              rw [if_neg hv, if_neg hd, if_pos hplow]
            rw [heq]
            refine ih _ (inv_skip inv hq hr0 hr1 hbase (Or.inr ?_))
            intro hpass
            rw [hp0] at hplow
            exact absurd hpass.2 (not_le.mpr hplow)
          · have hpass : PassDepth cfg base d0 :=
              ⟨Nat.not_lt.mp hd, hp0 ▸ not_lt.mp hplow⟩
            have heq : prop_loop cfg tw tid now (n + 1) st =
                prop_loop cfg tw tid now n
                  { queue := rest ++ (if v0 ∈ tw.nodes then
                        (twinNeighbors tw v0).filter
                          (fun v => !((st.visited ++ [v0]).contains v))
                      else []).map
                        (fun v => (v, d0 + 1, p0 * (1 - cfg.spread_rate)))
                    visited := st.visited ++ [v0]
                    nodes_reached := st.nodes_reached ++ [v0]
                    panic_by_node := alset v0 p0 st.panic_by_node
                    node_panic_levels := alset v0
                      (max ((alget v0 st.node_panic_levels).getD 0) p0)
                      st.node_panic_levels
                    agents := st.agents.map
                      (fun a => if a.current_node == v0 && !a.has_reached_goal
                        then a.update_panic p0 tid now else a)
                    affected_agents := st.affected_agents +
                      (st.agents.filter
                        (fun a => a.current_node == v0 &&
                          !a.has_reached_goal)).length } := by
              rw [prop_loop, hq]
              dsimp only
              rw [if_neg hv, if_neg hd, if_neg hplow]
            rw [heq]
            exact ih _ (inv_visit inv hq hv hr0 hr1 hbase hpass)

theorem withinDist_nil {tw : DigitalTwin} :
    ∀ (d : Nat) (v : String), ¬ WithinDist tw [] d v := by
  intro d
  induction d with
  | zero =>
    intro v h
    simp [WithinDist] at h
  | succ n ih =>
    intro v h
    rcases h with h | ⟨u, hu, _, _⟩
    · exact ih v h
    · exact ih u hu

theorem base_panic_nonneg (ty : TriggerType) : 0 ≤ base_panic ty := by
  cases ty <;> norm_num [base_panic]

theorem inv_init {cfg : PanicPropagationConfig} {tw : DigitalTwin}
    {seeds : List String} {base : ℚ} {tid : String} {now : ℚ}
    {orig : List Agent} (npl0 : List (String × ℚ)) :
    PropInv cfg tw seeds base tid now orig
      { queue := seeds.map (fun z => (z, 0, base))
        visited := []
        nodes_reached := []
        panic_by_node := []
        node_panic_levels := npl0
        agents := orig
        affected_agents := 0 } := by
  refine ⟨?_, ?_, ?_, ?_, ?_, ?_, ?_, ?_⟩
  · intro e he
    obtain ⟨z, hz, rfl⟩ := List.mem_map.mp he
    exact ⟨by rw [pow_zero, mul_one], hz⟩
  · rw [List.pairwise_map]
    exact pairwise_of_total (fun a b => ⟨le_refl 0, Nat.zero_le 1⟩) seeds
  · intro v p hvp
    simp at hvp
  · intro z
    simp [alget]
  · intro v hv
    simp at hv
  · intro v d' hh hp hfr
    cases hseeds : seeds with
    | nil =>
      exfalso
      rw [hseeds] at hh
      exact withinDist_nil d' v hh.1
    | cons z zs =>
      have hd0 : d' = 0 := by
        rw [hseeds] at hfr
        exact Nat.le_zero.mp hfr
      subst hd0
      have hvseeds : v ∈ z :: zs := hseeds ▸ hh.1
      exact Or.inr ⟨base, List.mem_map.mpr ⟨v, hvseeds, rfl⟩⟩
  · intro u hu
    simp at hu
  · intro i
    cases horig : orig[i]? with
    | none => rfl
    | some a => rfl

/-- C7 — Panic propagation decay and depth bound: `propagate_panic` runs
its BFS seeded at the trigger's affected zones (those present in
`node_data`) with initial panic `base_panic(type) × severity`; every
zone recorded in `panic_by_node` is recorded at its hop distance `d`
from the nearest affected zone with panic exactly
`initial × (1 − spread_rate)^d`, with `d` at most the propagation depth
limit and the value at or above the minimum-to-spread floor; and every
non-arrived agent located in a reached zone receives `update_panic`
with that zone's recorded value (all other agents are untouched).
Hypotheses: the spread rate lies in [0,1] and the severity is
nonnegative, as the data model specifies. -/
theorem propagate_panic_decay_and_depth (cfg : PanicPropagationConfig)
    (tw : DigitalTwin) (npl0 : List (String × ℚ)) (agents : List Agent)
    (trigger : Trigger) (now : ℚ)
    (hr0 : 0 ≤ cfg.spread_rate) (hr1 : cfg.spread_rate ≤ 1)
    (hsev : 0 ≤ trigger.severity) :
    (∀ v p, (v, p) ∈ (propagate_panic cfg tw npl0 agents trigger now).panic_by_node →
      ∃ d, HopDist tw (trigger.affected_zones.filter
          (fun z => (alget z tw.node_data).isSome)) v d ∧
        p = base_panic trigger.trigger_type * trigger.severity *
          (1 - cfg.spread_rate) ^ d ∧
        d ≤ cfg.max_propagation_depth ∧ cfg.min_panic_to_spread ≤ p) ∧
    (∀ i : Nat, (propagate_panic cfg tw npl0 agents trigger now).agents[i]? =
      (agents[i]?).map (fun a =>
        match alget a.current_node
            (propagate_panic cfg tw npl0 agents trigger now).panic_by_node with
        | some p => if a.has_reached_goal = false
            then a.update_panic p trigger.trigger_id now else a
        | none => a)) := by
  have hbase : 0 ≤ base_panic trigger.trigger_type * trigger.severity :=
    mul_nonneg (base_panic_nonneg trigger.trigger_type) hsev
  have inv := @inv_prop_loop cfg tw
    (trigger.affected_zones.filter (fun z => (alget z tw.node_data).isSome))
    (base_panic trigger.trigger_type * trigger.severity)
    trigger.trigger_id now agents hr0 hr1 hbase
    ((trigger.affected_zones.filter
      (fun z => (alget z tw.node_data).isSome)).length +
      ((trigger.affected_zones.filter
        (fun z => (alget z tw.node_data).isSome)).length + tw.edges.length) *
        (tw.edges.length + 1))
    _
    (@inv_init cfg tw
      (trigger.affected_zones.filter (fun z => (alget z tw.node_data).isSome))
      (base_panic trigger.trigger_type * trigger.severity)
      trigger.trigger_id now agents
      ((trigger.affected_zones.filter
        (fun z => (alget z tw.node_data).isSome)).foldl
          (fun m z => alset z (base_panic trigger.trigger_type * trigger.severity) m)
          npl0))
  constructor
  · intro v p hvp
    obtain ⟨d, hd, hp, hpass⟩ := inv.rec_sound v p hvp
    refine ⟨d, hd, hp, hpass.1, ?_⟩
    rw [hp]
    exact hpass.2
  · intro i
    exact inv.agents_ok i

/-- Witness for C7 on a two-zone line graph with the default
configuration, an explosion trigger of severity 0.8 on zone A, and one
agent standing in zone B. -/
theorem propagate_panic_decay_and_depth_witness :
    (propagate_panic defaultPropagationConfig
      ⟨["A", "B"], [("A", "B")],
        [("A", ⟨10, 20, 0, "general", 0, "SAFE", false, 0⟩),
         ("B", ⟨10, 20, 0, "general", 0, "SAFE", false, 0⟩)]⟩
      [] [Agent.init "B" "exit" (3/10) (7/10)]
      ⟨.EXTERNAL_EXPLOSION, 0, ["A"], 4/5, 30, "trig_1"⟩ 0).agents[0]? =
    (([Agent.init "B" "exit" (3/10) (7/10)])[0]?).map (fun a =>
      match alget a.current_node
          (propagate_panic defaultPropagationConfig
            ⟨["A", "B"], [("A", "B")],
              [("A", ⟨10, 20, 0, "general", 0, "SAFE", false, 0⟩),
               ("B", ⟨10, 20, 0, "general", 0, "SAFE", false, 0⟩)]⟩
            [] [Agent.init "B" "exit" (3/10) (7/10)]
            ⟨.EXTERNAL_EXPLOSION, 0, ["A"], 4/5, 30, "trig_1"⟩ 0).panic_by_node with
      | some p => if a.has_reached_goal = false
          then a.update_panic p "trig_1" 0 else a
      | none => a) :=
  (propagate_panic_decay_and_depth defaultPropagationConfig
    ⟨["A", "B"], [("A", "B")],
      [("A", ⟨10, 20, 0, "general", 0, "SAFE", false, 0⟩),
       ("B", ⟨10, 20, 0, "general", 0, "SAFE", false, 0⟩)]⟩
    [] [Agent.init "B" "exit" (3/10) (7/10)]
    ⟨.EXTERNAL_EXPLOSION, 0, ["A"], 4/5, 30, "trig_1"⟩ 0
    (by norm_num [defaultPropagationConfig])
    (by norm_num [defaultPropagationConfig])
    (by norm_num)).2 0

theorem twinNeighbors_subset {tw : DigitalTwin} {u w : String}
    (h : w ∈ twinNeighbors tw u) : w ∈ tw.edges.map (fun e => e.2) := by
  unfold twinNeighbors at h
  obtain ⟨e, he, rfl⟩ := List.mem_map.mp h
  exact List.mem_map.mpr ⟨e, (List.mem_filter.mp he).1, rfl⟩

theorem twinNeighbors_length {tw : DigitalTwin} (u : String) :
    (twinNeighbors tw u).length ≤ tw.edges.length := by
  unfold twinNeighbors
  rw [List.length_map]
  exact List.length_filter_le _ _

/-- Each fuel step of the propagation loop drains the queue: with fuel
at least the measure of the state, the loop runs the worklist to
exhaustion, exactly as the unbounded `while queue:` loop of the source
does. -/
theorem prop_loop_drains (cfg : PanicPropagationConfig) (tw : DigitalTwin)
    (tid : String) (now : ℚ) (seeds : List String) :
    ∀ (fuel : Nat) (st : PropState), QueueInv tw seeds st →
      propMeasure tw seeds st ≤ fuel →
      (prop_loop cfg tw tid now fuel st).queue = [] := by
  intro fuel
  induction fuel with
  | zero =>
    intro st _ hm
    have hq : st.queue.length = 0 := by
      unfold propMeasure at hm
      omega
    have : st.queue = [] := List.length_eq_zero.mp hq
    simpa [prop_loop] using this
  | succ n ih =>
    intro st hinv hm
    obtain ⟨hnd, hvU, hqU⟩ := hinv
    cases hq : st.queue with
    | nil =>
      rw [prop_loop, hq]
      exact hq
    | cons e rest =>
      obtain ⟨v0, d0, p0⟩ := e
      have hqlen : st.queue.length = rest.length + 1 := by rw [hq]; rfl
      have hskip : propMeasure tw seeds { st with queue := rest } ≤ n := by
        unfold propMeasure at hm ⊢
        simp only at hm ⊢
        omega
      have hskipinv : QueueInv tw seeds { st with queue := rest } :=
        ⟨hnd, hvU, fun e he => hqU e (hq ▸ List.mem_cons_of_mem _ he)⟩
      by_cases hv : v0 ∈ st.visited
      · have heq : prop_loop cfg tw tid now (n + 1) st =
            prop_loop cfg tw tid now n { st with queue := rest } := by
          rw [prop_loop, hq]
          dsimp only
          rw [if_pos hv]
        rw [heq]
        exact ih _ hskipinv hskip
      · by_cases hd : cfg.max_propagation_depth < d0
        · have heq : prop_loop cfg tw tid now (n + 1) st =
              prop_loop cfg tw tid now n { st with queue := rest } := by
            rw [prop_loop, hq]
            dsimp only
            rw [if_neg hv, if_pos hd]
          rw [heq]
          exact ih _ hskipinv hskip
        · by_cases hplow : p0 < cfg.min_panic_to_spread
          · have heq : prop_loop cfg tw tid now (n + 1) st =
                prop_loop cfg tw tid now n { st with queue := rest } := by
              rw [prop_loop, hq]
              dsimp only
              rw [if_neg hv, if_neg hd, if_pos hplow]
            rw [heq]
            exact ih _ hskipinv hskip
          · have heq : prop_loop cfg tw tid now (n + 1) st =
                prop_loop cfg tw tid now n
                  { queue := rest ++ (if v0 ∈ tw.nodes then
                        (twinNeighbors tw v0).filter
                          (fun v => !((st.visited ++ [v0]).contains v))
                      else []).map
                        (fun v => (v, d0 + 1, p0 * (1 - cfg.spread_rate)))
                    visited := st.visited ++ [v0]
                    nodes_reached := st.nodes_reached ++ [v0]
                    panic_by_node := alset v0 p0 st.panic_by_node
                    node_panic_levels := alset v0
                      (max ((alget v0 st.node_panic_levels).getD 0) p0)
                      st.node_panic_levels
                    agents := st.agents.map
                      (fun a => if a.current_node == v0 && !a.has_reached_goal
                        then a.update_panic p0 tid now else a)
                    affected_agents := st.affected_agents +
                      (st.agents.filter
                        (fun a => a.current_node == v0 &&
                          !a.has_reached_goal)).length } := by
              rw [prop_loop, hq]
              dsimp only
              rw [if_neg hv, if_neg hd, if_neg hplow]
            rw [heq]
            have hv0U : v0 ∈ PropUniverse tw seeds :=
              hqU (v0, d0, p0) (hq ▸ List.mem_cons_self _ _)
            have hnd' : (st.visited ++ [v0]).Nodup := by
              rw [List.nodup_append]
              exact ⟨hnd, List.nodup_singleton v0,
                fun a ha hb => hv ((List.mem_singleton.mp hb) ▸ ha)⟩
            have hvU' : ∀ v ∈ st.visited ++ [v0], v ∈ PropUniverse tw seeds := by
              intro v hvm
              rcases List.mem_append.mp hvm with h1 | h2
              · exact hvU v h1
              · exact (List.mem_singleton.mp h2) ▸ hv0U
            have hsub : (st.visited ++ [v0]).length ≤ (PropUniverse tw seeds).length :=
              (List.subperm_of_subset hnd' hvU').length_le
            have hvlen : (st.visited ++ [v0]).length = st.visited.length + 1 := by
              rw [List.length_append]
              rfl
            have hnews_len : ((if v0 ∈ tw.nodes then
                  (twinNeighbors tw v0).filter
                    (fun v => !((st.visited ++ [v0]).contains v))
                else []).map
                  (fun v => (v, d0 + 1, p0 * (1 - cfg.spread_rate)))).length ≤
                tw.edges.length := by
              rw [List.length_map]
              by_cases hn : v0 ∈ tw.nodes
              · rw [if_pos hn]
                exact (List.length_filter_le _ _).trans (twinNeighbors_length v0)
              · rw [if_neg hn]
                exact Nat.zero_le _
            refine ih _ ⟨hnd', hvU', ?_⟩ ?_
            · intro e he
              rcases List.mem_append.mp he with h1 | h2
              · exact hqU e (hq ▸ List.mem_cons_of_mem _ h1)
              · obtain ⟨w, hw, rfl⟩ := List.mem_map.mp h2
                by_cases hn : v0 ∈ tw.nodes
                · rw [if_pos hn] at hw
                  exact List.mem_append.mpr (Or.inr
                    (twinNeighbors_subset (List.mem_filter.mp hw).1))
                · rw [if_neg hn] at hw
                  simp at hw
            · -- measure strictly drops by at least two on a visit
              unfold propMeasure at hm ⊢
              rw [List.length_append, hvlen]
              obtain ⟨P, hP⟩ : ∃ P, (PropUniverse tw seeds).length -
                  st.visited.length = P + 1 := by
                refine ⟨(PropUniverse tw seeds).length - st.visited.length - 1, ?_⟩
                omega
              have hP' : (PropUniverse tw seeds).length -
                  (st.visited.length + 1) = P := by omega
              rw [hP'] at *
              rw [hP] at hm
              rw [Nat.succ_mul] at hm
              omega

/-- The fuel chosen in `propagate_panic` drains the queue completely,
so the fuelled model computes the same final state as the source's
unbounded worklist loop. -/
theorem propagate_panic_drains (cfg : PanicPropagationConfig) (tw : DigitalTwin)
    (npl0 : List (String × ℚ)) (agents : List Agent) (trigger : Trigger)
    (now : ℚ) :
    (propagate_panic cfg tw npl0 agents trigger now).queue = [] := by
  unfold propagate_panic
  refine prop_loop_drains cfg tw trigger.trigger_id now
    (trigger.affected_zones.filter (fun z => (alget z tw.node_data).isSome)) _ _
    ⟨List.nodup_nil, by simp, ?_⟩ ?_
  · intro e he
    obtain ⟨z, hz, rfl⟩ := List.mem_map.mp he
    exact List.mem_append.mpr (Or.inl hz)
  · unfold propMeasure PropUniverse
    simp only [List.length_map, List.length_append, Nat.sub_zero, List.length_nil]
    omega

end CrowdSim
